import Mathlib

/-!
# Verification of the go-tree-sitter binding layer

This file gives a shallow embedding of the Go source of the
`tree-sitter/go-tree-sitter` repository and proves properties of the
embedded definitions.  Pure Go functions become Lean functions; the
opaque C library functions that the Go layer wraps are either passed in
as explicit parameters (when a claim only concerns the Go glue) or are
modelled from the specification (marked `Modelled from the spec:` in the
doc comment).  Go `uint` values are modelled as `Nat`, with explicit
`% 2 ^ 32` truncation where the Go code converts to `C.uint32_t`.
Fallible Go code (slicing that can panic, functions returning `error`)
is modelled with `Except`/`Option`.
-/

namespace GoTreeSitter

/-- `Point` from point.go: a row/column position (column is a byte offset). -/
structure Point where
  row : Nat
  column : Nat
deriving DecidableEq, Repr

/-- `Range` from ranges.go: a byte/point range in a document. -/
structure Range where
  startByte : Nat
  endByte : Nat
  startPoint : Point
  endPoint : Point
deriving DecidableEq, Repr

/-- `IncludedRangesError` from ranges.go: carries the index of the first
incorrect range handed to `Parser.SetIncludedRanges`. -/
structure IncludedRangesError where
  Index : Nat
deriving DecidableEq, Repr

/-- `LanguageError` (used by `Parser.SetLanguage` in parser.go): carries the
incompatible ABI version. -/
structure LanguageError where
  version : Nat
deriving DecidableEq, Repr

/-- A `Language` as seen by the Go layer: only its ABI version matters for
`Parser.SetLanguage` (the table itself is opaque). -/
structure Language where
  version : Nat
deriving DecidableEq, Repr

/-- Modelled from the spec: the library's current grammar ABI version
(`TREE_SITTER_LANGUAGE_VERSION`, a constant of the C headers that is not
part of the Go sources). -/
def LANGUAGE_VERSION : Nat := 15

/-- Modelled from the spec: the minimum supported grammar ABI version
(`TREE_SITTER_MIN_COMPATIBLE_LANGUAGE_VERSION`, a constant of the C headers
that is not part of the Go sources). -/
def MIN_COMPATIBLE_LANGUAGE_VERSION : Nat := 13

/-- The mutable state of a `Parser` that the claims are about: the language
that has been assigned and the accepted included-range list. -/
structure ParserState where
  language : Option Language
  includedRanges : List Range
deriving DecidableEq, Repr

/-- Truncation to `uint32`, applied when the Go code converts its `uint`
fields into `C.uint32_t` values. -/
def toU32 (n : Nat) : Nat := n % 2 ^ 32

/-- The `C.TSRange` built from a Go `Range` in `Parser.SetIncludedRanges`
(all four coordinates pass through `C.uint32_t`). -/
def truncRange (r : Range) : Range :=
  { startByte := toU32 r.startByte
    endByte := toU32 r.endByte
    startPoint := ⟨toU32 r.startPoint.row, toU32 r.startPoint.column⟩
    endPoint := ⟨toU32 r.endPoint.row, toU32 r.endPoint.column⟩ }

/-- The validity scan over an included-range list, with `prevEnd` the end
byte of the previous range (`0` initially): a range is rejected if it starts
before the previous one ended or ends before it starts.  Modelled from the
spec: this is the acceptance condition of the C function
`ts_parser_set_included_ranges`, which is not part of the Go sources
("`SetIncludedRanges` must reject any list where
`ranges[i].end_byte > ranges[i+1].start_byte` for some i, or where any
`range.end_byte < range.start_byte`"). -/
def validFrom (prevEnd : Nat) : List Range → Bool
  | [] => true
  | r :: rest =>
    !(r.startByte < prevEnd || r.endByte < r.startByte) && validFrom r.endByte rest

/-- Modelled from the spec: `ts_parser_set_included_ranges` returns `false`
and leaves the parser's range list at its last valid value when the list is
invalid, and stores the list and returns `true` otherwise. -/
def tsParserSetIncludedRanges (st : ParserState) (rs : List Range) :
    ParserState × Bool :=
  if validFrom 0 rs then ({ st with includedRanges := rs }, true) else (st, false)

/-- The index-recovery scan of `Parser.SetIncludedRanges` (parser.go): walk
the ranges tracking the previous end byte and report the first offending
index.  (The Go loop carries the running index; here the index is recovered
by adding 1 per recursive step.) -/
def firstOffending (prevEnd : Nat) : List Range → Option Nat
  | [] => none
  | r :: rest =>
    if r.startByte < prevEnd || r.endByte < r.startByte then some 0
    else (firstOffending r.endByte rest).map (· + 1)

/-- `Parser.SetIncludedRanges` from parser.go: convert the ranges to
`C.TSRange` (truncating to `uint32`), call the C setter, and on failure
re-scan the original Go slice to find the first offending index
(`IncludedRangesError{0}` if the scan finds none). -/
def SetIncludedRanges (st : ParserState) (ranges : List Range) :
    ParserState × Option IncludedRangesError :=
  let tsRanges := ranges.map truncRange
  let callResult := tsParserSetIncludedRanges st tsRanges
  if callResult.2 then (callResult.1, none)
  else (st, some ⟨(firstOffending 0 ranges).getD 0⟩)

/-- `Parser.SetLanguage` from parser.go: accept the language exactly when
its ABI version lies in
`[MIN_COMPATIBLE_LANGUAGE_VERSION, LANGUAGE_VERSION]`; otherwise return a
`LanguageError` carrying the version and leave the parser untouched. -/
def SetLanguage (st : ParserState) (l : Language) :
    ParserState × Option LanguageError :=
  if MIN_COMPATIBLE_LANGUAGE_VERSION ≤ l.version ∧ l.version ≤ LANGUAGE_VERSION then
    ({ st with language := some l }, none)
  else (st, some ⟨l.version⟩)

/-- Go runtime panics that the embedded code could raise. -/
inductive GoPanic
  | sliceOutOfRange
  | nilDereference
deriving DecidableEq, Repr

end GoTreeSitter

namespace GoTreeSitter.TreeClose

/-- A `*Tree` value: `none` models a nil pointer, `some h` a live tree whose
inner C pointer is `h`. -/
def TreePtr : Type := Option Nat

/-- Observable C calls made by `Tree.Close`. -/
inductive CEffect
  | tsTreeDelete (inner : Nat)
deriving DecidableEq, Repr

/-- `Tree.Close` from tree.go: `if t != nil { C.ts_tree_delete(t._inner) }`.
The result is the list of C calls performed, or a panic. -/
def Close (t : TreePtr) : Except GoPanic (List CEffect) :=
  match t with
  | some inner => .ok [CEffect.tsTreeDelete inner]
  | none => .ok []

end GoTreeSitter.TreeClose

namespace GoTreeSitter.ParseM

open GoTreeSitter

/-- The halting conditions a parse can be subject to: the parser's
cancellation flag and its timeout. -/
structure HaltFlags where
  cancelled : Bool
  timedOut : Bool
deriving DecidableEq, Repr

/-- `ParseOptions` from parser.go: options carrying a progress callback; for
the claims only its verdict (does it veto, i.e. request a halt) matters. -/
structure ParseOptions where
  progressVeto : Bool
deriving DecidableEq, Repr

/-- Whether a parse call is halted: by the cancellation flag, the timeout,
or the progress callback's veto. -/
def haltedBy (h : HaltFlags) (options : Option ParseOptions) : Bool :=
  h.cancelled || h.timedOut || (options.map (·.progressVeto)).getD false

/-- A leaf of the model syntax tree: one input atom together with the
error/missing flags of the node that covers it. -/
structure MLeaf (α : Type) where
  tok : α
  isError : Bool
  isMissing : Bool
deriving DecidableEq, Repr

/-- The model syntax tree produced by the C parser: a root holding one node
per input atom (enough structure to state which regions are covered by
ERROR/MISSING nodes). -/
structure MTree (α : Type) where
  leaves : List (MLeaf α)
deriving DecidableEq, Repr

/-- Modelled from the spec: the C parser turns every input atom into a node
of the tree; an atom the grammar (abstracted as `lexOk`) cannot accept
becomes an ERROR node instead of failing the parse ("a complete Tree
(possibly containing internal ERROR/MISSING nodes if the input itself was
malformed — that is not a halting failure)"). -/
def buildTree {α : Type} (lexOk : α → Bool) (doc : List α) : MTree α :=
  ⟨doc.map (fun tok => ⟨tok, !lexOk tok, false⟩)⟩

/-- Modelled from the spec: `ts_parser_parse_with_options` (the C entry
point, not part of the Go sources) returns no tree exactly when the parse
was halted by cancellation, timeout or a progress-callback veto, and a
complete tree otherwise ("Cancellation/Timeout — yields no tree (nil/empty
result), not an error value"). -/
def tsParserParseWithOptions {α : Type} (lexOk : α → Bool) (h : HaltFlags)
    (options : Option ParseOptions) (doc : List α) : Option (MTree α) :=
  if haltedBy h options then none else some (buildTree lexOk doc)

/-- A Go `*Tree` wrapping the C tree, as built by `newTree` in tree.go. -/
structure Tree (α : Type) where
  _inner : MTree α
deriving DecidableEq, Repr

/-- `newTree` from tree.go. -/
def newTree {α : Type} (inner : MTree α) : Tree α := ⟨inner⟩

/-- The suffix chunk callback that `Parser.Parse` builds over its `text`
argument (parser.go): return `text[i:]` while `i < len(text)` and an empty
slice otherwise.  Go slicing is modelled as fallible (`goSliceFrom`), so
that totality of the callback is a theorem rather than an assumption. -/
def goSliceFrom {α : Type} (text : List α) (i : Nat) : Except GoPanic (List α) :=
  if i ≤ text.length then .ok (text.drop i) else .error .sliceOutOfRange

/-- The literal callback body from `Parser.Parse` (and the UTF-16 parse
entry points, which build the same suffix callback over their own text). -/
def parseChunkCallback {α : Type} (text : List α) (i : Nat) (_pos : Point) :
    Except GoPanic (List α) :=
  if i < text.length then goSliceFrom text i else .ok []

/-- Modelled from the spec: the document that the C input loop reconstructs
from a conforming chunk callback ("a callback that yields chunks of source
text at a byte offset").  A conforming callback returns, at offset 0, a
chunk that begins the document; for the suffix callbacks built by the parse
entry points that first chunk is already the whole document. -/
def documentOf {α : Type} (callback : Nat → Point → Except GoPanic (List α)) :
    List α :=
  match callback 0 ⟨0, 0⟩ with
  | .ok chunk => chunk
  | .error _ => []

/-- `Parser.ParseWithOptions` from parser.go: hand the callback's document
to `ts_parser_parse_with_options` and wrap a non-NULL result with
`newTree`, returning nil otherwise. -/
def ParseWithOptions {α : Type} (lexOk : α → Bool) (h : HaltFlags)
    (callback : Nat → Point → Except GoPanic (List α))
    (_oldTree : Option (Tree α)) (options : Option ParseOptions) :
    Option (Tree α) :=
  match tsParserParseWithOptions lexOk h options (documentOf callback) with
  | some cNewTree => some (newTree cNewTree)
  | none => none

/-- `Parser.ParseWith` from parser.go: `ParseWithOptions(callback, oldTree, nil)`. -/
def ParseWith {α : Type} (lexOk : α → Bool) (h : HaltFlags)
    (callback : Nat → Point → Except GoPanic (List α))
    (oldTree : Option (Tree α)) : Option (Tree α) :=
  ParseWithOptions lexOk h callback oldTree none

/-- `Parser.Parse` from parser.go: build the suffix callback over `text`
and call `ParseWithOptions` with it and no options. -/
def Parse {α : Type} (lexOk : α → Bool) (h : HaltFlags) (text : List α)
    (oldTree : Option (Tree α)) : Option (Tree α) :=
  ParseWithOptions lexOk h (parseChunkCallback text) oldTree none

/-- `Parser.ParseUTF16LEWith` from parser.go (same shape as `ParseWith`,
reading UTF-16 little-endian code units). -/
def ParseUTF16LEWith (lexOk : UInt16 → Bool) (h : HaltFlags)
    (callback : Nat → Point → Except GoPanic (List UInt16))
    (oldTree : Option (Tree UInt16)) : Option (Tree UInt16) :=
  ParseWithOptions lexOk h callback oldTree none

/-- `Parser.ParseUTF16BEWith` from parser.go. -/
def ParseUTF16BEWith (lexOk : UInt16 → Bool) (h : HaltFlags)
    (callback : Nat → Point → Except GoPanic (List UInt16))
    (oldTree : Option (Tree UInt16)) : Option (Tree UInt16) :=
  ParseWithOptions lexOk h callback oldTree none

/-- `Parser.ParseUTF16LE` from parser.go: suffix callback over the UTF-16
text, then `ParseUTF16LEWith`. -/
def ParseUTF16LE (lexOk : UInt16 → Bool) (h : HaltFlags) (text : List UInt16)
    (oldTree : Option (Tree UInt16)) : Option (Tree UInt16) :=
  ParseUTF16LEWith lexOk h (parseChunkCallback text) oldTree

/-- `Parser.ParseUTF16BE` from parser.go. -/
def ParseUTF16BE (lexOk : UInt16 → Bool) (h : HaltFlags) (text : List UInt16)
    (oldTree : Option (Tree UInt16)) : Option (Tree UInt16) :=
  ParseUTF16BEWith lexOk h (parseChunkCallback text) oldTree

end GoTreeSitter.ParseM

namespace GoTreeSitter.NodeM

/-- A `C.TSNode` value as the Go layer sees it: its `id` pointer, which is
nil exactly for the null node. -/
structure TSNode where
  id : Option Nat
deriving DecidableEq, Repr

/-- A Go `*Node` handle (node.go). -/
structure Node where
  _inner : TSNode
deriving DecidableEq, Repr

/-- `newNode` from node.go: return nil for the null node (`id == nil`),
otherwise wrap the raw node. -/
def newNode (node : TSNode) : Option Node :=
  if node.id = none then none else some ⟨node⟩

/-- The C node-navigation functions wrapped by node.go, taken as opaque
parameters: each maps the receiver's raw node (and arguments) to a raw
result which may be the null node. -/
structure CNodeApi where
  ts_node_child : TSNode → Nat → TSNode
  ts_node_named_child : TSNode → Nat → TSNode
  ts_node_parent : TSNode → TSNode
  ts_node_next_sibling : TSNode → TSNode
  ts_node_prev_sibling : TSNode → TSNode
  ts_node_next_named_sibling : TSNode → TSNode
  ts_node_prev_named_sibling : TSNode → TSNode
  ts_node_child_by_field_name : TSNode → String → TSNode
  ts_node_child_by_field_id : TSNode → Nat → TSNode
  ts_node_first_child_for_byte : TSNode → Nat → TSNode
  ts_node_descendant_for_byte_range : TSNode → Nat → Nat → TSNode

/-- `Node.Child` from node.go: `newNode(C.ts_node_child(n._inner, i))`. -/
def Node.Child (api : CNodeApi) (n : Node) (i : Nat) : Option Node :=
  newNode (api.ts_node_child n._inner i)

/-- `Node.NamedChild` from node.go. -/
def Node.NamedChild (api : CNodeApi) (n : Node) (i : Nat) : Option Node :=
  newNode (api.ts_node_named_child n._inner i)

/-- `Node.Parent` from node.go. -/
def Node.Parent (api : CNodeApi) (n : Node) : Option Node :=
  newNode (api.ts_node_parent n._inner)

/-- `Node.NextSibling` from node.go. -/
def Node.NextSibling (api : CNodeApi) (n : Node) : Option Node :=
  newNode (api.ts_node_next_sibling n._inner)

/-- `Node.PrevSibling` from node.go. -/
def Node.PrevSibling (api : CNodeApi) (n : Node) : Option Node :=
  newNode (api.ts_node_prev_sibling n._inner)

/-- `Node.NextNamedSibling` from node.go. -/
def Node.NextNamedSibling (api : CNodeApi) (n : Node) : Option Node :=
  newNode (api.ts_node_next_named_sibling n._inner)

/-- `Node.PrevNamedSibling` from node.go. -/
def Node.PrevNamedSibling (api : CNodeApi) (n : Node) : Option Node :=
  newNode (api.ts_node_prev_named_sibling n._inner)

/-- `Node.ChildByFieldName` from node.go. -/
def Node.ChildByFieldName (api : CNodeApi) (n : Node) (fieldName : String) :
    Option Node :=
  newNode (api.ts_node_child_by_field_name n._inner fieldName)

/-- `Node.ChildByFieldId` from node.go. -/
def Node.ChildByFieldId (api : CNodeApi) (n : Node) (fieldId : Nat) :
    Option Node :=
  newNode (api.ts_node_child_by_field_id n._inner fieldId)

/-- `Node.FirstChildForByte` from node.go. -/
def Node.FirstChildForByte (api : CNodeApi) (n : Node) (byteOffset : Nat) :
    Option Node :=
  newNode (api.ts_node_first_child_for_byte n._inner byteOffset)

/-- `Node.DescendantForByteRange` from node.go. -/
def Node.DescendantForByteRange (api : CNodeApi) (n : Node) (start stop : Nat) :
    Option Node :=
  newNode (api.ts_node_descendant_for_byte_range n._inner start stop)

/-- An optional node never wraps the null node: whenever it is `some`, the
wrapped raw node's id is non-nil. -/
def WrapsNoNull (o : Option Node) : Prop :=
  ∀ m : Node, o = some m → m._inner.id.isSome = true

end GoTreeSitter.NodeM

namespace GoTreeSitter.ReuseM

/-- A subtree of a parsed tree as relevant to reuse: its unique node id
(`Node.Id` in node.go), its byte span, and its children. -/
inductive SubtreeM
  | mk (id : Nat) (startByte : Nat) (endByte : Nat) (children : List SubtreeM)

/-- The byte region touched by one edit. -/
structure EditSpan where
  startByte : Nat
  endByte : Nat
deriving DecidableEq, Repr

/-- The id of a subtree. -/
def SubtreeM.nodeId : SubtreeM → Nat
  | .mk id _ _ _ => id

/-- The children of a subtree. -/
def SubtreeM.childList : SubtreeM → List SubtreeM
  | .mk _ _ _ cs => cs

/-- Does a subtree's byte range avoid one edited region entirely? -/
def disjointFrom (startByte endByte : Nat) (e : EditSpan) : Bool :=
  endByte ≤ e.startByte || e.endByte ≤ startByte

/-- Is a subtree's byte range entirely outside every edited region? -/
def outsideAll (startByte endByte : Nat) (edits : List EditSpan) : Bool :=
  edits.all (disjointFrom startByte endByte)

mutual

/-- Modelled from the spec: the incremental re-parse over an old tree.  A
subtree whose byte range is untouched by every edit is reused wholesale
(same node, same id); a subtree that overlaps an edit is rebuilt as a fresh
node (id displaced by `freshBase`) over the recursively processed children
("for all edits located entirely outside a subtree's byte range, re-parsing
with the old tree supplied must produce a subtree at that position that is
reference-identical (same node id) to the corresponding pre-edit
subtree"). -/
def reparse (freshBase : Nat) (edits : List EditSpan) : SubtreeM → SubtreeM
  | .mk id s e cs =>
    if outsideAll s e edits then .mk id s e cs
    else .mk (freshBase + id) s e (reparseList freshBase edits cs)

/-- `reparse` mapped over a child list. -/
def reparseList (freshBase : Nat) (edits : List EditSpan) :
    List SubtreeM → List SubtreeM
  | [] => []
  | c :: cs => reparse freshBase edits c :: reparseList freshBase edits cs

end

/-- The subtree of a tree at a path of child indices (the "corresponding
position" of a subtree across a re-parse). -/
def subtreeAt : SubtreeM → List Nat → Option SubtreeM
  | t, [] => some t
  | t, i :: rest =>
    match t.childList.get? i with
    | some c => subtreeAt c rest
    | none => none

/-- The byte span of a subtree. -/
def spanOf : SubtreeM → Nat × Nat
  | .mk _ s e _ => (s, e)

end GoTreeSitter.ReuseM

namespace GoTreeSitter.QueryM

/-- `QueryErrorKind` from query.go. -/
inductive QueryErrorKind
  | synE
  | nodeTypeE
  | fieldE
  | captureE
  | predicateE
  | structE
  | langE
deriving DecidableEq, Repr

/-- `QueryError` from query.go. -/
structure QueryError where
  Message : String
  Row : Nat
  Column : Nat
  Offset : Nat
  Kind : QueryErrorKind
deriving DecidableEq, Repr

/-- `predicateError` from query.go: a predicate-kind error at the given row,
with column and offset hard-wired to 0. -/
def predicateError (row : Nat) (message : String) : QueryError :=
  ⟨message, row, 0, 0, .predicateE⟩

/-- The type tag of a `C.TSQueryPredicateStep`. -/
inductive StepTy
  | done
  | captureStep
  | stringStep
deriving DecidableEq, Repr

/-- A `C.TSQueryPredicateStep`: a type tag and a value id (an index into the
query's capture-name table for captures, string table for strings). -/
structure PredStep where
  ty : StepTy
  valueId : Nat
deriving DecidableEq, Repr

/-- The `split` helper in `fromRawParts` (query.go): split the predicate
steps on `Done` separators; a separator always flushes the current group
(possibly empty), and a trailing non-empty group is flushed at the end. -/
def splitStepsAux : List PredStep → List PredStep → List (List PredStep)
  | [], current => if current.isEmpty then [] else [current]
  | t :: rest, current =>
    if t.ty == StepTy.done then current :: splitStepsAux rest []
    else splitStepsAux rest (current ++ [t])

/-- `split(predicateSteps, TYPE_DONE)` from query.go. -/
def splitSteps (steps : List PredStep) : List (List PredStep) :=
  splitStepsAux steps []

/-- `TextPredicateCapture` from query.go, with the `Type`/`Value any` pair
replaced by one constructor per `TextPredicateType`.  A compiled regex is
carried as its source text plus its matching function. -/
inductive TextPredicateCapture
  | eqCapture (captureId valueId : Nat) (positive matchAllNodes : Bool)
  | eqString (captureId : Nat) (value : String) (positive matchAllNodes : Bool)
  | matchString (captureId : Nat) (pattern : String)
      (matcher : List Char → Bool) (positive matchAllNodes : Bool)
  | anyString (captureId : Nat) (values : List String) (positive : Bool)

/-- `QueryProperty` from query.go. -/
structure QueryProperty where
  Key : String
  Value : Option String
  CaptureId : Option Nat
deriving DecidableEq, Repr

/-- `PropertyPredicate` from query.go. -/
structure PropertyPredicate where
  Property : QueryProperty
  Positive : Bool
deriving DecidableEq, Repr

/-- `QueryPredicateArg` from query.go (exactly one of the two is set). -/
inductive QueryPredicateArg
  | captureArg (id : Nat)
  | stringArg (s : String)
deriving DecidableEq, Repr

/-- `QueryPredicate` from query.go. -/
structure QueryPredicate where
  Operator : String
  Args : List QueryPredicateArg
deriving DecidableEq, Repr

/-- The four per-pattern accumulators built by `fromRawParts`. -/
structure PatternAccs where
  textPredicates : List TextPredicateCapture
  propertyPredicates : List PropertyPredicate
  propertySettings : List QueryProperty
  generalPredicates : List QueryPredicate

/-- The empty accumulators a pattern starts with. -/
def emptyAccs : PatternAccs := ⟨[], [], [], []⟩

/-- The context `fromRawParts` reads from the compiled C query and the Go
regexp package: the string-literal table, the capture-name table, and regex
compilation (`regexp.Compile`), abstracted as a partial function returning
the compiled matcher. -/
structure QueryCtx where
  stringValues : List String
  captureNames : List String
  regexCompile : String → Option (List Char → Bool)

/-- The loop body of `parseProperty` (query.go): fold the arguments into an
optional capture id, key and value, rejecting a second capture or a third
string argument. -/
def parsePropertyLoop (row : Nat) (functionName : String) (ctx : QueryCtx) :
    List PredStep → Option Nat → Option String → Option String →
    Except QueryError QueryProperty
  | [], captureId, key, value =>
    match key with
    | none =>
      .error (predicateError row
        ("Invalid arguments to " ++ functionName ++ " predicate. Missing key argument"))
    | some k => .ok ⟨k, value, captureId⟩
  | arg :: rest, captureId, key, value =>
    if arg.ty == StepTy.captureStep then
      match captureId with
      | some _ =>
        .error (predicateError row
          ("Invalid arguments to " ++ functionName ++
            " predicate. Unexpected second capture name @" ++
            ctx.captureNames.getD arg.valueId ""))
      | none => parsePropertyLoop row functionName ctx rest (some arg.valueId) key value
    else if key.isNone then
      parsePropertyLoop row functionName ctx rest captureId
        (some (ctx.stringValues.getD arg.valueId "")) value
    else if value.isNone then
      parsePropertyLoop row functionName ctx rest captureId key
        (some (ctx.stringValues.getD arg.valueId ""))
    else
      .error (predicateError row
        ("Invalid arguments to " ++ functionName ++
          " predicate. Unexpected third argument @" ++
          ctx.stringValues.getD arg.valueId ""))

/-- `parseProperty` from query.go. -/
def parseProperty (row : Nat) (functionName : String) (ctx : QueryCtx)
    (args : List PredStep) : Except QueryError QueryProperty :=
  if args.length == 0 || args.length > 3 then
    .error (predicateError row
      ("Wrong number of arguments to " ++ functionName ++
        " predicate. Expected 1 to 3, got " ++ toString args.length ++ "."))
  else parsePropertyLoop row functionName ctx args none none none

/-- The argument loop of the `any-of?` case of `fromRawParts` (query.go):
collect the literal argument values in order, failing at the first capture
argument. -/
def anyOfArgsLoop (row : Nat) (ctx : QueryCtx) :
    List PredStep → List String → Except QueryError (List String)
  | [], values => .ok values
  | arg :: rest, values =>
    if arg.ty == StepTy.captureStep then
      .error (predicateError row
        ("Arguments to #any-of? predicate must be literals. Got capture @" ++
          ctx.captureNames.getD arg.valueId "" ++ "."))
    else
      anyOfArgsLoop row ctx rest
        (values ++ [ctx.stringValues.getD arg.valueId ""])

/-- The comparison operators handled by the `eq?` case of `fromRawParts`. -/
def eqOps : List String := ["eq?", "not-eq?", "any-eq?", "any-not-eq?"]

/-- The operators handled by the `match?` case of `fromRawParts`. -/
def matchOps : List String := ["match?", "not-match?", "any-match?", "any-not-match?"]

/-- The operators handled by the `any-of?` case of `fromRawParts`. -/
def anyOfOps : List String := ["any-of?", "not-any-of?"]

/-- One iteration of the predicate-group loop of `fromRawParts` (query.go):
validate a non-empty group `p` and extend the accumulators, or fail with a
`predicateError` at the pattern's row. -/
def processGroup (row : Nat) (ctx : QueryCtx) (p : List PredStep)
    (acc : PatternAccs) : Except QueryError PatternAccs :=
  match p with
  | [] => .ok acc
  | p0 :: args =>
    if p0.ty != StepTy.stringStep then
      .error (predicateError row
        ("Expected predicate to start with a function name. Got @" ++
          ctx.captureNames.getD p0.valueId "" ++ "."))
    else
      let operatorName := ctx.stringValues.getD p0.valueId ""
      if operatorName ∈ eqOps then
        if p.length != 3 then
          .error (predicateError row
            ("Wrong number of arguments to #eq? predicate. Expected 2, got " ++
              toString (p.length - 1) ++ "."))
        else
          match args with
          | [p1, p2] =>
            if p1.ty != StepTy.captureStep then
              .error (predicateError row
                ("First argument to #eq? predicate must be a capture name. Got literal " ++
                  ctx.stringValues.getD p1.valueId "" ++ "."))
            else
              let isPositive := operatorName == "eq?" || operatorName == "any-eq?"
              let matchAll := operatorName == "eq?" || operatorName == "not-eq?"
              if p2.ty == StepTy.captureStep then
                .ok { acc with textPredicates := acc.textPredicates ++
                  [.eqCapture p1.valueId p2.valueId isPositive matchAll] }
              else
                .ok { acc with textPredicates := acc.textPredicates ++
                  [.eqString p1.valueId (ctx.stringValues.getD p2.valueId "")
                    isPositive matchAll] }
          | _ =>
            .error (predicateError row
              ("Wrong number of arguments to #eq? predicate. Expected 2, got " ++
                toString (p.length - 1) ++ "."))
      else if operatorName ∈ matchOps then
        if p.length != 3 then
          .error (predicateError row
            ("Wrong number of arguments to #match? predicate. Expected 2, got " ++
              toString (p.length - 1) ++ "."))
        else
          match args with
          | [p1, p2] =>
            if p1.ty != StepTy.captureStep then
              .error (predicateError row
                ("First argument to #match? predicate must be a capture name. Got literal " ++
                  ctx.stringValues.getD p1.valueId "" ++ "."))
            else if p2.ty == StepTy.captureStep then
              .error (predicateError row
                ("Second argument to #match? predicate must be a literal. Got capture @" ++
                  ctx.captureNames.getD p2.valueId "" ++ "."))
            else
              let isPositive := operatorName == "match?" || operatorName == "any-match?"
              let matchAll := operatorName == "match?" || operatorName == "not-match?"
              match ctx.regexCompile (ctx.stringValues.getD p2.valueId "") with
              | none =>
                .error (predicateError row
                  ("Invalid regex: \x27" ++ ctx.stringValues.getD p2.valueId "" ++
                    "\x27"))
              | some matcher =>
                .ok { acc with textPredicates := acc.textPredicates ++
                  [.matchString p1.valueId (ctx.stringValues.getD p2.valueId "")
                    matcher isPositive matchAll] }
          | _ =>
            .error (predicateError row
              ("Wrong number of arguments to #match? predicate. Expected 2, got " ++
                toString (p.length - 1) ++ "."))
      else if operatorName == "set!" then
        match parseProperty row operatorName ctx args with
        | .error e => .error e
        | .ok property =>
          .ok { acc with propertySettings := acc.propertySettings ++ [property] }
      else if operatorName == "is?" || operatorName == "is-not?" then
        match parseProperty row operatorName ctx args with
        | .error e => .error e
        | .ok property =>
          .ok { acc with propertyPredicates := acc.propertyPredicates ++
            [⟨property, operatorName == "is?"⟩] }
      else if operatorName ∈ anyOfOps then
        if p.length < 2 then
          .error (predicateError row
            ("Wrong number of arguments to #any-of? predicate. Expected at least 1, got " ++
              toString (p.length - 1) ++ "."))
        else
          match args with
          | p1 :: restArgs =>
            if p1.ty != StepTy.captureStep then
              .error (predicateError row
                ("First argument to #any-of? predicate must be a capture name. Got literal " ++
                  ctx.stringValues.getD p1.valueId "" ++ "."))
            else
              match anyOfArgsLoop row ctx restArgs [] with
              | .error e => .error e
              | .ok values =>
                let isPositive := operatorName == "any-of?"
                .ok { acc with textPredicates := acc.textPredicates ++
                  [.anyString p1.valueId values isPositive] }
          | [] =>
            .error (predicateError row
              ("Wrong number of arguments to #any-of? predicate. Expected at least 1, got " ++
                toString (p.length - 1) ++ "."))
      else
        .ok { acc with generalPredicates := acc.generalPredicates ++
          [⟨operatorName,
            args.map (fun a =>
              if a.ty == StepTy.captureStep then .captureArg a.valueId
              else .stringArg (ctx.stringValues.getD a.valueId ""))⟩] }

/-- The predicate-group loop of `fromRawParts`: process each group in order,
skipping empty groups, propagating the first error. -/
def processGroups (row : Nat) (ctx : QueryCtx) :
    List (List PredStep) → PatternAccs → Except QueryError PatternAccs
  | [], acc => .ok acc
  | p :: rest, acc =>
    match processGroup row ctx p acc with
    | .error e => .error e
    | .ok acc2 => processGroups row ctx rest acc2

/-- The row computation of `fromRawParts` (query.go): count the newlines in
the query source strictly before the pattern's start byte. -/
def patternRow (source : List Char) (byteOffset : Nat) : Nat :=
  (source.take byteOffset).count '\n'

/-- The per-pattern data `fromRawParts` reads from the compiled C query: the
raw predicate steps and the pattern's start byte in the query source. -/
structure PatternData where
  steps : List PredStep
  byteOffset : Nat

/-- `fromRawParts` from query.go, restricted to the predicate-compilation
part the claims are about: process each pattern's predicate groups in order,
returning the per-pattern accumulators or the first `QueryError`. -/
def fromRawPartsModel (source : List Char) (ctx : QueryCtx) :
    List PatternData → Except QueryError (List PatternAccs)
  | [] => .ok []
  | pd :: rest =>
    match processGroups (patternRow source pd.byteOffset) ctx
        (splitSteps pd.steps) emptyAccs with
    | .error e => .error e
    | .ok acc =>
      match fromRawPartsModel source ctx rest with
      | .error e => .error e
      | .ok others => .ok (acc :: others)

end GoTreeSitter.QueryM

namespace GoTreeSitter.QueryM

/-- A captured syntax node as the text predicates see it: its byte range in
the source text. -/
structure QNode where
  startByte : Nat
  endByte : Nat
deriving DecidableEq, Repr

/-- `QueryCapture` from query.go. -/
structure QueryCapture where
  node : QNode
  index : Nat
deriving DecidableEq, Repr

/-- `QueryMatch` from query.go (the pattern index and capture list that
`SatisfiesTextPredicate` reads). -/
structure QueryMatchM where
  patternIndex : Nat
  captures : List QueryCapture
deriving DecidableEq, Repr

/-- `QueryMatch.NodesForCaptureIndex` from query.go: the nodes captured
under the given capture index, in capture order. -/
def NodesForCaptureIndex (qm : QueryMatchM) (captureIndex : Nat) : List QNode :=
  (qm.captures.filter (fun c => c.index == captureIndex)).map (fun c => c.node)

/-- Go slicing `text[startByte:endByte]` (total form; the predicate code
only slices with node byte ranges). -/
def sliceText (text : List Char) (startByte endByte : Nat) : List Char :=
  (text.take endByte).drop startByte

/-- The `TextPredicateTypeEqCapture` loop of `SatisfiesTextPredicate`
(query.go): walk the two capture lists in lockstep; under all-captures
semantics bail out false on a counterexample, under any-capture semantics
bail out true on a witness; when either list runs out, succeed iff both ran
out. -/
def condEqCapture (text : List Char) (positive matchAllNodes : Bool) :
    List QNode → List QNode → Bool
  | node1 :: rest1, node2 :: rest2 =>
    let isPositiveMatch :=
      sliceText text node1.startByte node1.endByte ==
        sliceText text node2.startByte node2.endByte
    if isPositiveMatch != positive && matchAllNodes then false
    else if isPositiveMatch == positive && !matchAllNodes then true
    else condEqCapture text positive matchAllNodes rest1 rest2
  | nodes1, nodes2 => nodes1.isEmpty && nodes2.isEmpty

/-- The `TextPredicateTypeEqString` loop of `SatisfiesTextPredicate`
(query.go). -/
def condEqString (text : List Char) (positive matchAllNodes : Bool)
    (s : String) : List QNode → Bool
  | [] => true
  | node :: rest =>
    let nodeText := sliceText text node.startByte node.endByte
    let isPositiveMatch := nodeText == s.toList
    if isPositiveMatch != positive && matchAllNodes then false
    else if isPositiveMatch == positive && !matchAllNodes then true
    else condEqString text positive matchAllNodes s rest

/-- The `TextPredicateTypeMatchString` loop of `SatisfiesTextPredicate`
(query.go). -/
def condMatchString (text : List Char) (positive matchAllNodes : Bool)
    (matcher : List Char → Bool) : List QNode → Bool
  | [] => true
  | node :: rest =>
    let nodeText := sliceText text node.startByte node.endByte
    let isPositiveMatch := matcher nodeText
    if isPositiveMatch != positive && matchAllNodes then false
    else if isPositiveMatch == positive && !matchAllNodes then true
    else condMatchString text positive matchAllNodes matcher rest

/-- The `TextPredicateTypeAnyString` loop of `SatisfiesTextPredicate`
(query.go): every node's text must (positive) or must not (negative) be one
of the listed strings. -/
def condAnyString (text : List Char) (positive : Bool)
    (values : List String) : List QNode → Bool
  | [] => true
  | node :: rest =>
    let nodeText := sliceText text node.startByte node.endByte
    let isPositiveMatch := values.any (fun s => s.toList == nodeText)
    if isPositiveMatch != positive then false
    else condAnyString text positive values rest

/-- The `condition` closure of `SatisfiesTextPredicate` (query.go). -/
def conditionOf (text : List Char) (qm : QueryMatchM)
    (predicate : TextPredicateCapture) : Bool :=
  match predicate with
  | .eqCapture i j positive matchAll =>
    condEqCapture text positive matchAll
      (NodesForCaptureIndex qm i) (NodesForCaptureIndex qm j)
  | .eqString i s positive matchAll =>
    condEqString text positive matchAll s (NodesForCaptureIndex qm i)
  | .matchString i _ matcher positive matchAll =>
    condMatchString text positive matchAll matcher (NodesForCaptureIndex qm i)
  | .anyString i values positive =>
    condAnyString text positive values (NodesForCaptureIndex qm i)

/-- `QueryMatch.SatisfiesTextPredicate` from query.go: the match passes iff
every text predicate of its pattern passes. -/
def SatisfiesTextPredicate (textPredicates : List (List TextPredicateCapture))
    (text : List Char) (qm : QueryMatchM) : Bool :=
  (textPredicates.getD qm.patternIndex []).all (conditionOf text qm)

/-- `QueryMatches.Next` from query.go: pull raw matches from the cursor
(modelled as the list of matches the C cursor still has to deliver) and
return the first one that satisfies its pattern's text predicates, skipping
the others; nil when the cursor runs out. -/
def QueryMatchesNext (textPredicates : List (List TextPredicateCapture))
    (text : List Char) : List QueryMatchM → Option QueryMatchM
  | [] => none
  | m :: rest =>
    if SatisfiesTextPredicate textPredicates text m then some m
    else QueryMatchesNext textPredicates text rest

/-- `QueryCaptures.Next` from query.go: same filtering over the cursor's
raw (match, capture index) stream. -/
def QueryCapturesNext (textPredicates : List (List TextPredicateCapture))
    (text : List Char) : List (QueryMatchM × Nat) → Option (QueryMatchM × Nat)
  | [] => none
  | mc :: rest =>
    if SatisfiesTextPredicate textPredicates text mc.1 then some mc
    else QueryCapturesNext textPredicates text rest

end GoTreeSitter.QueryM

namespace GoTreeSitter.QueryM

/-- `strings.Split(source, "\n")` from the error branch of `NewQuery`
(query.go): split into lines, one more line than there are newlines. -/
def splitNl : List Char → List (List Char)
  | [] => [[]]
  | c :: rest =>
    if c = '\n' then [] :: splitNl rest
    else
      match splitNl rest with
      | [] => [[c]]
      | h :: t => (c :: h) :: t

/-- The line-locating loop of `NewQuery`'s error branch (query.go): walk the
lines keeping the running line start and row; stop at the first line whose
end (`lineStart + len(line) + 1`) lies beyond the offset, returning that
line; if no line qualifies the loop falls through with an empty line. -/
def locateLinesAux (offset : Nat) :
    List (List Char) → Nat → Nat → Nat × Nat × List Char
  | [], lineStart, row => (row, lineStart, [])
  | line :: rest, lineStart, row =>
    if lineStart + line.length + 1 > offset then (row, lineStart, line)
    else locateLinesAux offset rest (lineStart + line.length + 1) (row + 1)

/-- The identifier alphabet of `NewQuery`'s error branch:
`strings.ContainsRune("abc...XYZ0123456789_-", c)`. -/
def isIdentChar (c : Char) : Bool :=
  "abcdefghijklmnopqrstuvwxyzABCDEFGHIJKLMNOPQRSTUVWXYZ0123456789_-".toList.contains c

/-- The end offset of the identifier run in `NewQuery`'s error branch: the
index of the first non-identifier character of the suffix (the suffix's
length when every character qualifies). -/
def identEndIdx : List Char → Nat
  | [] => 0
  | c :: rest => if isIdentChar c then identEndIdx rest + 1 else 0

/-- The error types `ts_query_new` can report together with a byte offset
(`TSQueryErrorLanguage` is handled before the offset is used and carries no
location). -/
inductive TSQueryErrorC
  | nodeTypeC
  | fieldC
  | captureC
  | structC
  | synC
deriving DecidableEq, Repr

/-- The `QueryErrorKind` assigned to each C error type in `NewQuery`
(query.go). -/
def kindOfC : TSQueryErrorC → QueryErrorKind
  | .nodeTypeC => .nodeTypeE
  | .fieldC => .fieldE
  | .captureC => .captureE
  | .structC => .structE
  | .synC => .synE

/-- The error-construction branch of `NewQuery` (query.go): locate the
offset's line, then build the message — for the name-reporting error types
the identifier run at the offset, otherwise the offending line with a caret
under the column, or "Unexpected EOF" when no (non-empty) line contained
the offset. -/
def queryErrorFromOffset (source : List Char) (offset : Nat)
    (errorType : TSQueryErrorC) : QueryError :=
  let located := locateLinesAux offset (splitNl source) 0 0
  let row := located.1
  let lineStart := located.2.1
  let lineContainingError := located.2.2
  let column := offset - lineStart
  match errorType with
  | .nodeTypeC | .fieldC | .captureC =>
    let suffix := source.drop offset
    let message := String.mk (suffix.take (identEndIdx suffix))
    ⟨message, row, column, offset, kindOfC errorType⟩
  | .structC | .synC =>
    let message :=
      if lineContainingError.isEmpty then "Unexpected EOF"
      else
        String.mk lineContainingError ++ "\n" ++
          String.mk (List.replicate (offset - lineStart) ' ') ++ "^"
    ⟨message, row, column, offset, kindOfC errorType⟩

/-- The failure path of `NewQuery` (query.go): when `ts_query_new` reports
an error offset and type, no query is constructed and the located
`QueryError` is returned. -/
def NewQueryOnCompileError (source : List Char) (errorOffset : Nat)
    (errorType : TSQueryErrorC) : Option (List PatternAccs) × Option QueryError :=
  (none, some (queryErrorFromOffset source errorOffset errorType))

/-- Reference definition, following the spec's words: the row of a byte
offset in a source text is the number of newlines before it. -/
def specRow (source : List Char) (offset : Nat) : Nat :=
  (source.take offset).count '\n'

/-- Reference definition, following the spec's words: the column of a byte
offset is its distance from the last newline before it (the number of
non-newline characters closing the prefix). -/
def specColumn (source : List Char) (offset : Nat) : Nat :=
  ((source.take offset).reverse.takeWhile (fun c => c != '\n')).length

/-- Reference definition: the start offset of the line containing a byte
offset. -/
def specLineStart (source : List Char) (offset : Nat) : Nat :=
  offset - specColumn source offset

/-- Reference definition: the line of the source containing a byte offset
(up to the next newline or the end of the source). -/
def specLine (source : List Char) (offset : Nat) : List Char :=
  (source.drop (specLineStart source offset)).takeWhile (fun c => c != '\n')

/-- Reference definition, following the claim's words for syntax/structure
errors: the offending source line followed by a caret under the offending
column, or "Unexpected EOF" when the offset is past the last line (beyond
the end of the source). -/
def claimedSyntaxMessage (source : List Char) (offset : Nat) : String :=
  if source.length < offset then "Unexpected EOF"
  else
    String.mk (specLine source offset) ++ "\n" ++
      String.mk (List.replicate (specColumn source offset) ' ') ++ "^"

end GoTreeSitter.QueryM

namespace GoTreeSitter

/-- The claim-side well-formedness bound: the spec's `Range` carries
`uint32` coordinates, so every field value is below `2 ^ 32`. -/
def RangeU32 (r : Range) : Prop :=
  r.startByte < 2 ^ 32 ∧ r.endByte < 2 ^ 32 ∧
    r.startPoint.row < 2 ^ 32 ∧ r.startPoint.column < 2 ^ 32 ∧
    r.endPoint.row < 2 ^ 32 ∧ r.endPoint.column < 2 ^ 32

instance (r : Range) : Decidable (RangeU32 r) := by
  unfold RangeU32; infer_instance

/-- Position-indexed form of the offending-range test, with `prevEnd` the
end byte of the range before the current sublist. -/
def offRel (prevEnd : Nat) : List Range → Nat → Bool
  | [], _ => false
  | r :: _, 0 => decide (r.startByte < prevEnd) || decide (r.endByte < r.startByte)
  | r :: rest, i + 1 => offRel r.endByte rest i

/-- Reference definition, following the claim's words: range `i` of the list
is offending when its end byte is below its start byte, or when it starts
before range `i - 1` ends. -/
def specOffending (rs : List Range) (i : Nat) : Bool :=
  match rs[i]? with
  | none => false
  | some r =>
    decide (r.endByte < r.startByte) ||
      (decide (1 ≤ i) &&
        match rs[i - 1]? with
        | none => false
        | some q => decide (r.startByte < q.endByte))

/-- The end byte of the range preceding index `i`, with `prevEnd` standing
in for position `-1`. -/
def prevEndAt (prevEnd : Nat) (rs : List Range) (i : Nat) : Nat :=
  if i = 0 then prevEnd
  else
    match rs[i - 1]? with
    | none => 0
    | some q => q.endByte

end GoTreeSitter

namespace GoTreeSitter.QueryM

/-- Is the first step of an argument list a capture? -/
def headIsCapture : List PredStep → Bool
  | a :: _ => a.ty == StepTy.captureStep
  | [] => false

/-- Claim-side violation rules for a predicate group: the `eq?` family needs
exactly two arguments with a capture first; the `match?` family additionally
needs a literal (non-capture) second argument whose text compiles as a
regex; the `any-of?` family needs a capture first and only literal
arguments after it. -/
def groupViolation (ctx : QueryCtx) (p : List PredStep) : Bool :=
  match p with
  | [] => false
  | p0 :: args =>
    p0.ty == StepTy.stringStep &&
      (let op := ctx.stringValues.getD p0.valueId ""
       (decide (op ∈ eqOps) && (p.length != 3 || !headIsCapture args)) ||
       (decide (op ∈ matchOps) &&
         (p.length != 3 || !headIsCapture args ||
           (match args with
            | [_, p2] =>
              p2.ty == StepTy.captureStep ||
                (ctx.regexCompile (ctx.stringValues.getD p2.valueId "")).isNone
            | _ => false))) ||
       (decide (op ∈ anyOfOps) &&
         (p.length < 2 || !headIsCapture args ||
           (args.drop 1).any (fun a => a.ty == StepTy.captureStep))))

/-- The tail of `NewQuery` after a successful C compile (query.go): build
the Go-side query from `fromRawParts`, or return no query and the error. -/
def NewQueryAfterCompile (source : List Char) (ctx : QueryCtx)
    (patterns : List PatternData) :
    Option (List PatternAccs) × Option QueryError :=
  match fromRawPartsModel source ctx patterns with
  | .error e => (none, some e)
  | .ok accs => (some accs, none)

end GoTreeSitter.QueryM

namespace GoTreeSitter.NodeM

/-- A sample C navigation environment in which every call returns a live
node (id 1); used to witness the accessor theorems. -/
def sampleApi : CNodeApi where
  ts_node_child := fun _ _ => ⟨some 1⟩
  ts_node_named_child := fun _ _ => ⟨some 1⟩
  ts_node_parent := fun _ => ⟨some 1⟩
  ts_node_next_sibling := fun _ => ⟨some 1⟩
  ts_node_prev_sibling := fun _ => ⟨some 1⟩
  ts_node_next_named_sibling := fun _ => ⟨some 1⟩
  ts_node_prev_named_sibling := fun _ => ⟨some 1⟩
  ts_node_child_by_field_name := fun _ _ => ⟨some 1⟩
  ts_node_child_by_field_id := fun _ _ => ⟨some 1⟩
  ts_node_first_child_for_byte := fun _ _ => ⟨some 1⟩
  ts_node_descendant_for_byte_range := fun _ _ _ => ⟨some 1⟩

/-- A sample live node. -/
def sampleNode : Node := ⟨⟨some 0⟩⟩

end GoTreeSitter.NodeM

namespace GoTreeSitter

open GoTreeSitter.TreeClose in
/-- C9: Calling `Close` on a nil `*Tree` is a no-op — it performs no C call
and does not panic — so a deferred `tree.Close()` is safe even when the
parse returned no tree because of cancellation or timeout. -/
theorem c9_close_nil_tree_is_noop :
    Close (none : TreePtr) = Except.ok [] := rfl

/-- C3: `SetLanguage` succeeds (returns nil and assigns the language) iff
the language's ABI version lies in
`[MIN_COMPATIBLE_LANGUAGE_VERSION, LANGUAGE_VERSION]`; outside that range it
returns a `LanguageError` carrying the version and leaves the parser's
previously set language unchanged. -/
theorem c3_set_language_version_gate (st : ParserState) (l : Language) :
    ((SetLanguage st l).2 = none ↔
      (MIN_COMPATIBLE_LANGUAGE_VERSION ≤ l.version ∧
        l.version ≤ LANGUAGE_VERSION)) ∧
    ((MIN_COMPATIBLE_LANGUAGE_VERSION ≤ l.version ∧
        l.version ≤ LANGUAGE_VERSION) →
      SetLanguage st l = ({ st with language := some l }, none)) ∧
    (¬(MIN_COMPATIBLE_LANGUAGE_VERSION ≤ l.version ∧
        l.version ≤ LANGUAGE_VERSION) →
      SetLanguage st l = (st, some ⟨l.version⟩)) := by
  unfold SetLanguage
  by_cases h : MIN_COMPATIBLE_LANGUAGE_VERSION ≤ l.version ∧
      l.version ≤ LANGUAGE_VERSION
  · simp [h]
  · simp [h]

/-- Witness for C3 at concrete versions 20 (rejected) and 14 (accepted). -/
theorem c3_set_language_version_gate_witness :
    SetLanguage ⟨none, []⟩ ⟨20⟩ = (⟨none, []⟩, some ⟨20⟩) ∧
    SetLanguage ⟨none, []⟩ ⟨14⟩ =
      ({ language := some ⟨14⟩, includedRanges := [] }, none) :=
  ⟨(c3_set_language_version_gate ⟨none, []⟩ ⟨20⟩).2.2 (by decide),
   (c3_set_language_version_gate ⟨none, []⟩ ⟨14⟩).2.1 (by decide)⟩

end GoTreeSitter

namespace GoTreeSitter.NodeM

/-- Every result of `newNode` that is non-nil wraps a raw node whose id is
non-nil. -/
theorem newNode_wrapsNoNull (raw : TSNode) : WrapsNoNull (newNode raw) := by
  intro m hm
  unfold newNode at hm
  by_cases hid : raw.id = none
  · simp [hid] at hm
  · simp [hid] at hm
    cases hm
    simpa [Option.isSome_iff_ne_none] using hid

/-- C8: every `newNode`-wrapped navigation accessor of `Node` returns nil
whenever the underlying C result is the null node (nil id), and never
returns a non-nil `Node` wrapping a null node. -/
theorem c8_accessors_never_wrap_null (api : CNodeApi) (n : Node)
    (i fid b s e : Nat) (fname : String) :
    WrapsNoNull (Node.Child api n i) ∧
    WrapsNoNull (Node.NamedChild api n i) ∧
    WrapsNoNull (Node.Parent api n) ∧
    WrapsNoNull (Node.NextSibling api n) ∧
    WrapsNoNull (Node.PrevSibling api n) ∧
    WrapsNoNull (Node.NextNamedSibling api n) ∧
    WrapsNoNull (Node.PrevNamedSibling api n) ∧
    WrapsNoNull (Node.ChildByFieldName api n fname) ∧
    WrapsNoNull (Node.ChildByFieldId api n fid) ∧
    WrapsNoNull (Node.FirstChildForByte api n b) ∧
    WrapsNoNull (Node.DescendantForByteRange api n s e) :=
  ⟨newNode_wrapsNoNull _, newNode_wrapsNoNull _, newNode_wrapsNoNull _,
   newNode_wrapsNoNull _, newNode_wrapsNoNull _, newNode_wrapsNoNull _,
   newNode_wrapsNoNull _, newNode_wrapsNoNull _, newNode_wrapsNoNull _,
   newNode_wrapsNoNull _, newNode_wrapsNoNull _⟩

/-- Witness for C8: in a sample environment the child accessor yields a
node whose id is non-nil. -/
theorem c8_accessors_never_wrap_null_witness :
    Node.Child sampleApi sampleNode 0 = some ⟨⟨some 1⟩⟩ ∧
    (⟨⟨some 1⟩⟩ : Node)._inner.id.isSome = true :=
  ⟨rfl,
   (c8_accessors_never_wrap_null sampleApi sampleNode 0 0 0 0 0 "f").1
     ⟨⟨some 1⟩⟩ rfl⟩

end GoTreeSitter.NodeM

namespace GoTreeSitter.ParseM

/-- `ParseWithOptions` in closed form: nil exactly under a halt, otherwise
the wrapped complete tree over the callback's document. -/
theorem ParseWithOptions_eq {α : Type} (lexOk : α → Bool) (h : HaltFlags)
    (cb : Nat → Point → Except GoPanic (List α)) (old : Option (Tree α))
    (options : Option ParseOptions) :
    ParseWithOptions lexOk h cb old options =
      if haltedBy h options then none
      else some (newTree (buildTree lexOk (documentOf cb))) := by
  unfold ParseWithOptions tsParserParseWithOptions
  by_cases hh : haltedBy h options <;> simp [hh]

/-- C10: the chunk callback built by `Parser.Parse` is total — it returns
`text[i:]` for `i < len(text)` and an empty slice otherwise, never going
out of bounds — it signals end of input exactly from offset `len(text)`
on, its document is `text` itself, and `Parse` is exactly
`ParseWithOptions` applied to it. -/
theorem c10_parse_suffix_callback (text : List UInt8) (i : Nat) (pos : Point) :
    (i < text.length → parseChunkCallback text i pos = .ok (text.drop i)) ∧
    (text.length ≤ i → parseChunkCallback text i pos = .ok []) ∧
    (∃ chunk, parseChunkCallback text i pos = .ok chunk) ∧
    (parseChunkCallback text i pos = .ok [] ↔ text.length ≤ i) ∧
    documentOf (parseChunkCallback text) = text ∧
    (∀ (lexOk : UInt8 → Bool) (h : HaltFlags) (old : Option (Tree UInt8)),
      Parse lexOk h text old =
        ParseWithOptions lexOk h (parseChunkCallback text) old none) := by
  have hdoc : documentOf (parseChunkCallback text) = text := by
    have hcb : parseChunkCallback text 0 ⟨0, 0⟩ = .ok text := by
      by_cases h0 : 0 < text.length
      · simp [parseChunkCallback, goSliceFrom, h0]
      · have : text = [] := by
          cases text with
          | nil => rfl
          | cons a l => exact absurd (by simp) h0
        simp [parseChunkCallback, this]
    simp [documentOf, hcb]
  refine ⟨?_, ?_, ?_, ?_, hdoc, fun _ _ _ => rfl⟩
  · intro hlt
    simp [parseChunkCallback, goSliceFrom, hlt, Nat.le_of_lt hlt]
  · intro hge
    simp [parseChunkCallback, Nat.not_lt.mpr hge]
  · by_cases hlt : i < text.length
    · exact ⟨text.drop i, by simp [parseChunkCallback, goSliceFrom, hlt, Nat.le_of_lt hlt]⟩
    · exact ⟨[], by simp [parseChunkCallback, hlt]⟩
  · constructor
    · intro hok
      by_cases hlt : i < text.length
      · simp [parseChunkCallback, goSliceFrom, hlt, Nat.le_of_lt hlt] at hok
        omega
      · exact Nat.not_lt.mp hlt
    · intro hge
      simp [parseChunkCallback, Nat.not_lt.mpr hge]

/-- Witness for C10 at `text = [3, 7]`, `i = 1`. -/
theorem c10_parse_suffix_callback_witness :
    (1 < ([3, 7] : List UInt8).length) ∧
    parseChunkCallback ([3, 7] : List UInt8) 1 ⟨0, 0⟩ = .ok [7] :=
  ⟨by decide,
   by simpa using (c10_parse_suffix_callback ([3, 7] : List UInt8) 1 ⟨0, 0⟩).1 (by decide)⟩

/-- C1: the parse entry points (`Parse`, `ParseWith`, `ParseWithOptions`
and the UTF-16 variants) return nil exactly when parsing was halted by
cancellation, timeout, or a progress-callback veto; every other call
returns a non-nil complete tree in which each malformed input atom is
covered by an ERROR node rather than producing a failure result. -/
theorem c1_parse_nil_iff_halted {α : Type} (lexOk : α → Bool) (h : HaltFlags)
    (options : Option ParseOptions)
    (cb : Nat → Point → Except GoPanic (List α)) (old : Option (Tree α))
    (text : List α) (lexOk16 : UInt16 → Bool)
    (cb16 : Nat → Point → Except GoPanic (List UInt16))
    (old16 : Option (Tree UInt16)) (text16 : List UInt16) :
    (ParseWithOptions lexOk h cb old options = none ↔
      haltedBy h options = true) ∧
    (ParseWith lexOk h cb old = none ↔ (h.cancelled || h.timedOut) = true) ∧
    (Parse lexOk h text old = none ↔ (h.cancelled || h.timedOut) = true) ∧
    (ParseUTF16LEWith lexOk16 h cb16 old16 = none ↔
      (h.cancelled || h.timedOut) = true) ∧
    (ParseUTF16BEWith lexOk16 h cb16 old16 = none ↔
      (h.cancelled || h.timedOut) = true) ∧
    (ParseUTF16LE lexOk16 h text16 old16 = none ↔
      (h.cancelled || h.timedOut) = true) ∧
    (ParseUTF16BE lexOk16 h text16 old16 = none ↔
      (h.cancelled || h.timedOut) = true) ∧
    (∀ t, ParseWithOptions lexOk h cb old options = some t →
      t = newTree (buildTree lexOk (documentOf cb)) ∧
      ∀ i : Nat, ((documentOf cb).get? i).map (fun tok => !lexOk tok) =
        (t._inner.leaves.get? i).map (fun leaf => leaf.isError)) := by
  have hnone : ∀ {β : Type} (lo : β → Bool) (hb : HaltFlags)
      (ob : Option ParseOptions) (cbb : Nat → Point → Except GoPanic (List β))
      (ol : Option (Tree β)),
      (ParseWithOptions lo hb cbb ol ob = none ↔ haltedBy hb ob = true) := by
    intro β lo hb ob cbb ol
    rw [ParseWithOptions_eq]
    by_cases hh : haltedBy hb ob <;> simp [hh]
  have hplain : ∀ (hb : HaltFlags), haltedBy hb none = (hb.cancelled || hb.timedOut) := by
    intro hb
    simp [haltedBy]
  refine ⟨hnone lexOk h options cb old, ?_, ?_, ?_, ?_, ?_, ?_, ?_⟩
  · rw [show ParseWith lexOk h cb old = ParseWithOptions lexOk h cb old none from rfl,
      hnone, hplain]
  · rw [show Parse lexOk h text old =
        ParseWithOptions lexOk h (parseChunkCallback text) old none from rfl,
      hnone, hplain]
  · rw [show ParseUTF16LEWith lexOk16 h cb16 old16 =
        ParseWithOptions lexOk16 h cb16 old16 none from rfl, hnone, hplain]
  · rw [show ParseUTF16BEWith lexOk16 h cb16 old16 =
        ParseWithOptions lexOk16 h cb16 old16 none from rfl, hnone, hplain]
  · rw [show ParseUTF16LE lexOk16 h text16 old16 =
        ParseWithOptions lexOk16 h (parseChunkCallback text16) old16 none from rfl,
      hnone, hplain]
  · rw [show ParseUTF16BE lexOk16 h text16 old16 =
        ParseWithOptions lexOk16 h (parseChunkCallback text16) old16 none from rfl,
      hnone, hplain]
  · intro t ht
    rw [ParseWithOptions_eq] at ht
    by_cases hh : haltedBy h options
    · simp [hh] at ht
    · simp [hh] at ht
      refine ⟨ht.symm, ?_⟩
      intro i
      subst ht
      simp only [newTree, buildTree, List.get?_eq_getElem?, List.getElem?_map,
        Option.map_map]
      cases (documentOf cb)[i]? <;> rfl

/-- Witness for C1: with both halt flags clear the parse yields a tree; with
the cancellation flag set it yields nil. -/
theorem c1_parse_nil_iff_halted_witness :
    (ParseWithOptions (fun b : UInt8 => b == 0) ⟨false, false⟩
        (parseChunkCallback [0, 1]) none none ≠ none) ∧
    (ParseWithOptions (fun b : UInt8 => b == 0) ⟨true, false⟩
        (parseChunkCallback [0, 1]) none none = none) := by
  constructor
  · intro hEq
    have := (c1_parse_nil_iff_halted (fun b : UInt8 => b == 0) ⟨false, false⟩ none
      (parseChunkCallback [0, 1]) none [] (fun _ => true)
      (parseChunkCallback []) none []).1.mp hEq
    simp [haltedBy] at this
  · exact (c1_parse_nil_iff_halted (fun b : UInt8 => b == 0) ⟨true, false⟩ none
      (parseChunkCallback [0, 1]) none [] (fun _ => true)
      (parseChunkCallback []) none []).1.mpr (by simp [haltedBy])

end GoTreeSitter.ParseM

namespace GoTreeSitter.ReuseM

/-- Indexing into a re-parsed child list is `reparse` applied pointwise. -/
theorem reparseList_get (base : Nat) (edits : List EditSpan) :
    ∀ (cs : List SubtreeM) (i : Nat),
      (reparseList base edits cs).get? i = (cs.get? i).map (reparse base edits)
  | [], i => by simp [reparseList]
  | c :: cs, 0 => by simp [reparseList]
  | c :: cs, i + 1 => by
    simpa [reparseList] using reparseList_get base edits cs i

/-- C7: after editing and re-parsing, every subtree of the old tree whose
byte range lies entirely outside all edited regions appears at the
corresponding position (same child-index path) of the new tree as the very
same subtree — in particular with the same node id. -/
theorem c7_unedited_subtree_reused (base : Nat) (edits : List EditSpan) :
    ∀ (path : List Nat) (t st : SubtreeM), subtreeAt t path = some st →
      outsideAll (spanOf st).1 (spanOf st).2 edits = true →
      subtreeAt (reparse base edits t) path = some st := by
  intro path
  induction path with
  | nil =>
    intro t st hat hout
    cases t with
    | mk id s e cs =>
      simp only [subtreeAt, Option.some.injEq] at hat
      subst hat
      simp only [spanOf] at hout
      simp [reparse, hout, subtreeAt]
  | cons i rest ih =>
    intro t st hat hout
    cases t with
    | mk id s e cs =>
      simp only [subtreeAt, SubtreeM.childList] at hat
      cases hc : cs.get? i with
      | none => rw [hc] at hat; cases hat
      | some c =>
        rw [hc] at hat
        by_cases ho : outsideAll s e edits
        · simp only [reparse, ho, if_true, subtreeAt, SubtreeM.childList, hc]
          exact hat
        · simp only [reparse, ho, if_false, Bool.false_eq_true, subtreeAt,
            SubtreeM.childList, reparseList_get, hc, Option.map_some]
          exact ih c st hat hout

/-- Witness for C7: a two-child tree with an edit inside the first child;
the second child (outside the edit) reappears unchanged, with its id, while
the root is rebuilt. -/
theorem c7_unedited_subtree_reused_witness :
    subtreeAt (SubtreeM.mk 1 0 10 [SubtreeM.mk 2 0 4 [], SubtreeM.mk 3 5 9 []])
        [1] = some (SubtreeM.mk 3 5 9 []) ∧
    outsideAll (spanOf (SubtreeM.mk 3 5 9 [])).1 (spanOf (SubtreeM.mk 3 5 9 [])).2
        [⟨0, 4⟩] = true ∧
    subtreeAt
        (reparse 100 [⟨0, 4⟩]
          (SubtreeM.mk 1 0 10 [SubtreeM.mk 2 0 4 [], SubtreeM.mk 3 5 9 []]))
        [1] = some (SubtreeM.mk 3 5 9 []) :=
  ⟨rfl, rfl,
   c7_unedited_subtree_reused 100 [⟨0, 4⟩] [1]
     (SubtreeM.mk 1 0 10 [SubtreeM.mk 2 0 4 [], SubtreeM.mk 3 5 9 []])
     (SubtreeM.mk 3 5 9 []) rfl rfl⟩

end GoTreeSitter.ReuseM

namespace GoTreeSitter

/-- Closed form of `offRel`: it tests the claim's condition at index `i`,
with the previous end byte read from the list (or `pe` at index 0). -/
theorem offRel_eq (rs : List Range) : ∀ (pe i : Nat),
    offRel pe rs i =
      (match rs[i]? with
       | none => false
       | some r =>
         decide (r.endByte < r.startByte) ||
           decide (r.startByte < prevEndAt pe rs i)) := by
  induction rs with
  | nil => intro pe i; simp [offRel]
  | cons r rest ih =>
    intro pe i
    cases i with
    | zero => simp [offRel, prevEndAt, Bool.or_comm]
    | succ j =>
      rw [show offRel pe (r :: rest) (j + 1) = offRel r.endByte rest j from rfl, ih]
      have hprev : prevEndAt pe (r :: rest) (j + 1) = prevEndAt r.endByte rest j := by
        cases j with
        | zero => simp [prevEndAt]
        | succ k => simp [prevEndAt]
      rw [hprev]
      simp

/-- The claim's offending test agrees with `offRel` at `prevEnd = 0`. -/
theorem specOffending_eq_offRel (rs : List Range) (i : Nat) :
    specOffending rs i = offRel 0 rs i := by
  rw [offRel_eq]
  unfold specOffending
  cases hgi : rs[i]? with
  | none => rfl
  | some r =>
    cases i with
    | zero => simp [hgi, prevEndAt]
    | succ j =>
      cases hgj : rs[j]? with
      | none => simp [hgi, prevEndAt, hgj]
      | some q => simp [hgi, prevEndAt, hgj]

/-- `firstOffending` finds nothing iff no index offends. -/
theorem firstOffending_none (rs : List Range) : ∀ pe : Nat,
    firstOffending pe rs = none ↔ ∀ i, offRel pe rs i = false := by
  induction rs with
  | nil => intro pe; simp [firstOffending, offRel]
  | cons r rest ih =>
    intro pe
    unfold firstOffending
    by_cases hc : (r.startByte < pe || r.endByte < r.startByte) = true
    · simp only [hc, if_true]
      constructor
      · intro hnone; cases hnone
      · intro hall
        have := hall 0
        rw [show offRel pe (r :: rest) 0 =
          (decide (r.startByte < pe) || decide (r.endByte < r.startByte)) from rfl] at this
        rw [this] at hc
        cases hc
    · rw [if_neg hc, Option.map_eq_none', ih r.endByte]
      constructor
      · intro hall i
        cases i with
        | zero =>
          rw [show offRel pe (r :: rest) 0 =
            (decide (r.startByte < pe) || decide (r.endByte < r.startByte)) from rfl]
          simpa using hc
        | succ j => exact hall j
      · intro hall j
        exact hall (j + 1)

/-- When `firstOffending` reports an index, that index offends and every
earlier index does not. -/
theorem firstOffending_some (rs : List Range) : ∀ (pe j : Nat),
    firstOffending pe rs = some j →
      offRel pe rs j = true ∧ ∀ k, k < j → offRel pe rs k = false := by
  induction rs with
  | nil => intro pe j h; cases h
  | cons r rest ih =>
    intro pe j h
    unfold firstOffending at h
    by_cases hc : (r.startByte < pe || r.endByte < r.startByte) = true
    · simp only [hc, if_true, Option.some.injEq] at h
      subst h
      refine ⟨?_, fun k hk => absurd hk (by omega)⟩
      rw [show offRel pe (r :: rest) 0 =
        (decide (r.startByte < pe) || decide (r.endByte < r.startByte)) from rfl]
      simpa using hc
    · rw [if_neg hc, Option.map_eq_some'] at h
      obtain ⟨j2, hj2, hjeq⟩ := h
      obtain ⟨h1, h2⟩ := ih r.endByte j2 hj2
      subst hjeq
      refine ⟨h1, ?_⟩
      intro k hk
      cases k with
      | zero =>
        rw [show offRel pe (r :: rest) 0 =
          (decide (r.startByte < pe) || decide (r.endByte < r.startByte)) from rfl]
        simpa using hc
      | succ k2 => exact h2 k2 (by omega)

/-- The modelled C validity scan succeeds iff the index scan finds no
offender. -/
theorem validFrom_iff_none (rs : List Range) : ∀ pe : Nat,
    validFrom pe rs = true ↔ firstOffending pe rs = none := by
  induction rs with
  | nil => intro pe; simp [validFrom, firstOffending]
  | cons r rest ih =>
    intro pe
    unfold validFrom firstOffending
    by_cases hc : (r.startByte < pe || r.endByte < r.startByte) = true
    · simp [hc]
    · rw [if_neg hc, Option.map_eq_none', ← ih r.endByte]
      have hcf : (decide (r.startByte < pe) || decide (r.endByte < r.startByte)) = false := by
        simpa using hc
      rw [hcf]
      simp

/-- Truncating a `uint32`-bounded range changes nothing. -/
theorem truncRange_eq_self (r : Range) (h : RangeU32 r) : truncRange r = r := by
  obtain ⟨h1, h2, h3, h4, h5, h6⟩ := h
  unfold truncRange toU32
  cases r with
  | mk sb eb sp ep =>
    cases sp; cases ep
    simp_all [Nat.mod_eq_of_lt]

/-- Truncating a list of `uint32`-bounded ranges changes nothing. -/
theorem map_truncRange_eq (rs : List Range) (h : ∀ r ∈ rs, RangeU32 r) :
    rs.map truncRange = rs := by
  induction rs with
  | nil => rfl
  | cons r rest ih =>
    simp only [List.map_cons]
    rw [truncRange_eq_self r (h r (by simp)),
      ih (fun x hx => h x (by simp [hx]))]

/-- C2: for `uint32`-bounded range lists, `SetIncludedRanges` rejects a list
with an offending range (end before start, or start before the previous
end), returning an `IncludedRangesError` with the first offending index and
leaving the parser's range list untouched; a well-ordered, non-overlapping
list is accepted with a nil error. -/
theorem c2_included_ranges_validation (st : ParserState) (rs : List Range)
    (hU : ∀ r ∈ rs, RangeU32 r) :
    ((∃ i, specOffending rs i = true) →
      ∃ j, SetIncludedRanges st rs = (st, some ⟨j⟩) ∧
        specOffending rs j = true ∧ ∀ k, k < j → specOffending rs k = false) ∧
    ((∀ i, specOffending rs i = false) →
      SetIncludedRanges st rs = ({ st with includedRanges := rs }, none)) := by
  have hmap := map_truncRange_eq rs hU
  constructor
  · rintro ⟨i, hi⟩
    have hoff : offRel 0 rs i = true := by
      rw [← specOffending_eq_offRel]; exact hi
    have hfo : firstOffending 0 rs ≠ none := by
      intro hnone
      have := (firstOffending_none rs 0).mp hnone i
      rw [this] at hoff; cases hoff
    obtain ⟨j, hj⟩ : ∃ j, firstOffending 0 rs = some j := by
      cases hfo2 : firstOffending 0 rs with
      | none => exact absurd hfo2 hfo
      | some j => exact ⟨j, rfl⟩
    have hvalid : validFrom 0 rs = false := by
      by_cases hv : validFrom 0 rs = true
      · exact absurd ((validFrom_iff_none rs 0).mp hv) hfo
      · simpa using hv
    obtain ⟨hj1, hj2⟩ := firstOffending_some rs 0 j hj
    refine ⟨j, ?_, ?_, ?_⟩
    · unfold SetIncludedRanges tsParserSetIncludedRanges
      simp [hmap, hvalid, hj]
    · rw [specOffending_eq_offRel]; exact hj1
    · intro k hk
      rw [specOffending_eq_offRel]; exact hj2 k hk
  · intro hall
    have hoffall : ∀ i, offRel 0 rs i = false := by
      intro i; rw [← specOffending_eq_offRel]; exact hall i
    have hfo : firstOffending 0 rs = none := (firstOffending_none rs 0).mpr hoffall
    have hvalid : validFrom 0 rs = true := (validFrom_iff_none rs 0).mpr hfo
    unfold SetIncludedRanges tsParserSetIncludedRanges
    simp [hmap, hvalid]

/-- Witness for C2 at the repository's own test data: an unordered list is
rejected at index 1 with the parser untouched, and an ordered list is
accepted. -/
theorem c2_included_ranges_validation_witness :
    (∃ j, SetIncludedRanges ⟨none, []⟩
        [⟨23, 29, ⟨0, 23⟩, ⟨0, 29⟩⟩, ⟨0, 5, ⟨0, 0⟩, ⟨0, 5⟩⟩,
          ⟨50, 60, ⟨0, 50⟩, ⟨0, 60⟩⟩] = (⟨none, []⟩, some ⟨j⟩) ∧
      specOffending
        [⟨23, 29, ⟨0, 23⟩, ⟨0, 29⟩⟩, ⟨0, 5, ⟨0, 0⟩, ⟨0, 5⟩⟩,
          ⟨50, 60, ⟨0, 50⟩, ⟨0, 60⟩⟩] j = true ∧
      ∀ k, k < j → specOffending
        [⟨23, 29, ⟨0, 23⟩, ⟨0, 29⟩⟩, ⟨0, 5, ⟨0, 0⟩, ⟨0, 5⟩⟩,
          ⟨50, 60, ⟨0, 50⟩, ⟨0, 60⟩⟩] k = false) ∧
    SetIncludedRanges ⟨none, []⟩ [⟨0, 5, ⟨0, 0⟩, ⟨0, 5⟩⟩, ⟨5, 9, ⟨0, 5⟩, ⟨0, 9⟩⟩] =
      ({ language := none,
         includedRanges := [⟨0, 5, ⟨0, 0⟩, ⟨0, 5⟩⟩, ⟨5, 9, ⟨0, 5⟩, ⟨0, 9⟩⟩] }, none) :=
  ⟨(c2_included_ranges_validation ⟨none, []⟩ _ (by decide)).1 ⟨1, by decide⟩,
   (c2_included_ranges_validation ⟨none, []⟩ _ (by decide)).2 (by
     intro i
     match i with
     | 0 => rfl
     | 1 => rfl
     | (n + 2) => rfl)⟩

end GoTreeSitter

namespace GoTreeSitter.QueryM

/-- C5 (evaluation of the code at the failing input): under "any capture"
semantics (`any-eq?` compiled to `eqString` with `matchAllNodes = false`),
a match whose single captured node's text differs from the literal is
nevertheless reported as satisfying the predicate — the loop can only
short-circuit to true and its fall-through also returns true — and
`QueryMatches.Next` therefore yields the match instead of skipping it. -/
theorem c5_any_eq_predicate_never_rejects :
    SatisfiesTextPredicate [[TextPredicateCapture.eqString 0 "x" true false]]
        ['y'] ⟨0, [⟨⟨0, 1⟩, 0⟩]⟩ = true ∧
    QueryMatchesNext [[TextPredicateCapture.eqString 0 "x" true false]] ['y']
        [⟨0, [⟨⟨0, 1⟩, 0⟩]⟩] = some ⟨0, [⟨⟨0, 1⟩, 0⟩]⟩ ∧
    NodesForCaptureIndex ⟨0, [⟨⟨0, 1⟩, 0⟩]⟩ 0 = [⟨0, 1⟩] ∧
    (NodesForCaptureIndex ⟨0, [⟨⟨0, 1⟩, 0⟩]⟩ 0).any
      (fun n => sliceText ['y'] n.startByte n.endByte == "x".toList) = false :=
  ⟨rfl, rfl, rfl, rfl⟩

end GoTreeSitter.QueryM

namespace GoTreeSitter.QueryM

/-- Every error of the `parseProperty` loop is a `predicateError` at the
pattern's row. -/
theorem parsePropertyLoop_error_shape (rowN : Nat) (fn : String) (ctx : QueryCtx) :
    ∀ (args : List PredStep) (cid : Option Nat) (key value : Option String)
      (e : QueryError),
      parsePropertyLoop rowN fn ctx args cid key value = .error e →
      ∃ msg, e = predicateError rowN msg := by
  intro args
  induction args with
  | nil =>
    intro cid key value e h
    unfold parsePropertyLoop at h
    split at h
    · cases h; exact ⟨_, rfl⟩
    · cases h
  | cons arg rest ih =>
    intro cid key value e h
    unfold parsePropertyLoop at h
    split at h
    · split at h
      · cases h; exact ⟨_, rfl⟩
      · exact ih _ _ _ _ h
    · split at h
      · exact ih _ _ _ _ h
      · split at h
        · exact ih _ _ _ _ h
        · cases h; exact ⟨_, rfl⟩

/-- Every error of `parseProperty` is a `predicateError` at the pattern's
row. -/
theorem parseProperty_error_shape (rowN : Nat) (fn : String) (ctx : QueryCtx)
    (args : List PredStep) (e : QueryError)
    (h : parseProperty rowN fn ctx args = .error e) :
    ∃ msg, e = predicateError rowN msg := by
  unfold parseProperty at h
  split at h
  · cases h; exact ⟨_, rfl⟩
  · exact parsePropertyLoop_error_shape rowN fn ctx args none none none e h

/-- Every error of the `any-of?` argument loop is a `predicateError` at the
pattern's row. -/
theorem anyOfArgsLoop_error_shape (rowN : Nat) (ctx : QueryCtx) :
    ∀ (args : List PredStep) (values : List String) (e : QueryError),
      anyOfArgsLoop rowN ctx args values = .error e →
      ∃ msg, e = predicateError rowN msg := by
  intro args
  induction args with
  | nil => intro values e h; cases h
  | cons a rest ih =>
    intro values e h
    unfold anyOfArgsLoop at h
    split at h
    · cases h; exact ⟨_, rfl⟩
    · exact ih _ _ h

/-- A capture among the trailing arguments of an `any-of?` predicate makes
the argument loop fail. -/
theorem anyOfArgsLoop_errors_of_capture (rowN : Nat) (ctx : QueryCtx) :
    ∀ (args : List PredStep),
      (args.any fun x => x.ty == StepTy.captureStep) = true →
      ∀ values, ∃ e, anyOfArgsLoop rowN ctx args values = .error e := by
  intro args
  induction args with
  | nil => intro h; cases h
  | cons a rest ih =>
    intro h values
    unfold anyOfArgsLoop
    by_cases hcap : (a.ty == StepTy.captureStep) = true
    · exact ⟨_, by rw [if_pos hcap]⟩
    · rw [List.any_cons] at h
      have hrest : (rest.any fun x => x.ty == StepTy.captureStep) = true := by
        rcases (Bool.or_eq_true _ _).mp h with hx | hx
        · exact absurd hx hcap
        · exact hx
      obtain ⟨e, he⟩ := ih hrest (values ++ [ctx.stringValues.getD a.valueId ""])
      exact ⟨e, by rw [if_neg hcap]; exact he⟩

/-- Every error of the group-validation step is a `predicateError` at the
pattern's row. -/
theorem processGroup_error_shape (rowN : Nat) (ctx : QueryCtx)
    (p : List PredStep) (acc : PatternAccs) (e : QueryError)
    (h : processGroup rowN ctx p acc = .error e) :
    ∃ msg, e = predicateError rowN msg := by
  simp only [processGroup] at h
  repeat' split at h
  all_goals
    first
      | (cases h; exact ⟨_, rfl⟩)
      | (rename_i heq
         cases h
         exact parseProperty_error_shape _ _ _ _ _ heq)
      | (rename_i heq
         cases h
         exact anyOfArgsLoop_error_shape _ _ _ _ _ heq)
      | exact absurd h (by simp)

/-- Every error of the predicate-group loop is a `predicateError` at the
pattern's row. -/
theorem processGroups_error_shape (rowN : Nat) (ctx : QueryCtx) :
    ∀ (gs : List (List PredStep)) (acc : PatternAccs) (e : QueryError),
      processGroups rowN ctx gs acc = .error e →
      ∃ msg, e = predicateError rowN msg := by
  intro gs
  induction gs with
  | nil => intro acc e h; cases h
  | cons g rest ih =>
    intro acc e h
    unfold processGroups at h
    split at h
    · rename_i heq
      cases h
      exact processGroup_error_shape rowN ctx g acc _ heq
    · exact ih _ _ h

/-- Every error of the predicate-compilation phase is a predicate-kind error
with column and offset 0, produced by the first pattern whose predicate
groups fail to validate: that pattern's group processing returns exactly
this error, the error's row is that pattern's row, and every earlier
pattern's groups validate successfully. -/
theorem fromRawPartsModel_error_attribution (source : List Char) (ctx : QueryCtx) :
    ∀ (pats : List PatternData) (e : QueryError),
      fromRawPartsModel source ctx pats = .error e →
      e.Kind = .predicateE ∧ e.Column = 0 ∧ e.Offset = 0 ∧
        ∃ (k : Nat) (pd : PatternData), pats[k]? = some pd ∧
          processGroups (patternRow source pd.byteOffset) ctx
            (splitSteps pd.steps) emptyAccs = .error e ∧
          e.Row = patternRow source pd.byteOffset ∧
          ∀ (j : Nat) (pdj : PatternData), j < k → pats[j]? = some pdj →
            ∃ acc, processGroups (patternRow source pdj.byteOffset) ctx
              (splitSteps pdj.steps) emptyAccs = .ok acc := by
  intro pats
  induction pats with
  | nil => intro e h; cases h
  | cons pd rest ih =>
    intro e h
    unfold fromRawPartsModel at h
    split at h
    · rename_i heq
      cases h
      obtain ⟨msg, hmsg⟩ :=
        processGroups_error_shape _ ctx (splitSteps pd.steps) emptyAccs _ heq
      subst hmsg
      refine ⟨rfl, rfl, rfl, 0, pd, by simp, heq, rfl, ?_⟩
      intro j pdj hj _
      exact absurd hj (Nat.not_lt_zero j)
    · rename_i acc heq
      split at h
      · rename_i heq2
        cases h
        obtain ⟨h1, h2, h3, k, pd2, hk, hpg, hrow, hearlier⟩ := ih _ heq2
        refine ⟨h1, h2, h3, k + 1, pd2, by simpa using hk, hpg, hrow, ?_⟩
        intro j pdj hj hgj
        match j with
        | 0 =>
          have hpd0 : pd = pdj := by simpa using hgj
          subst hpd0
          exact ⟨acc, heq⟩
        | j + 1 =>
          exact hearlier j pdj (Nat.lt_of_succ_lt_succ hj) (by simpa using hgj)
      · cases h

end GoTreeSitter.QueryM

namespace GoTreeSitter.QueryM

/-- Unpack membership in the `eq?` operator family. -/
theorem mem_eqOps_cases (op : String) (h : op ∈ eqOps) :
    op = "eq?" ∨ op = "not-eq?" ∨ op = "any-eq?" ∨ op = "any-not-eq?" := by
  simpa [eqOps] using h

/-- Unpack membership in the `match?` operator family. -/
theorem mem_matchOps_cases (op : String) (h : op ∈ matchOps) :
    op = "match?" ∨ op = "not-match?" ∨ op = "any-match?" ∨ op = "any-not-match?" := by
  simpa [matchOps] using h

/-- Unpack membership in the `any-of?` operator family. -/
theorem mem_anyOfOps_cases (op : String) (h : op ∈ anyOfOps) :
    op = "any-of?" ∨ op = "not-any-of?" := by
  simpa [anyOfOps] using h

/-- A group that violates one of the claim's predicate rules makes the
validation step fail. -/
theorem processGroup_errors_of_violation (rowN : Nat) (ctx : QueryCtx)
    (p : List PredStep) (hv : groupViolation ctx p = true) (acc : PatternAccs) :
    ∃ e, processGroup rowN ctx p acc = .error e := by
  match p with
  | [] => simp [groupViolation] at hv
  | ⟨ty0, vid0⟩ :: args =>
    simp only [groupViolation, Bool.and_eq_true, Bool.or_eq_true,
      decide_eq_true_eq] at hv
    obtain ⟨hstr, hbig⟩ := hv
    have hty : ty0 = StepTy.stringStep := by simpa using hstr
    subst hty
    rcases hbig with (⟨hE, hcond⟩ | ⟨hM, hcond⟩) | ⟨hA, hcond⟩
    · -- eq? family
      by_cases harity :
          (((⟨StepTy.stringStep, vid0⟩ : PredStep) :: args).length != 3) = true
      · exact ⟨_, by
          simp only [processGroup]
          rw [if_neg (by decide), if_pos hE, if_pos harity]⟩
      · have hlen : args.length = 2 := by
          have h3 : ((⟨StepTy.stringStep, vid0⟩ : PredStep) :: args).length = 3 := by
            simpa using harity
          simpa using h3
        obtain ⟨a, b, rfl⟩ := List.length_eq_two.mp hlen
        rcases hcond with hcond | hcond
        · exact absurd hcond harity
        · have hhead : (a.ty != StepTy.captureStep) = true := by
            simp only [headIsCapture] at hcond
            simpa using hcond
          exact ⟨_, by
            simp only [processGroup]
            rw [if_neg (by decide), if_pos hE, if_neg harity]
            rw [if_pos hhead]⟩
    · -- match? family
      have hEf : ¬(ctx.stringValues.getD vid0 "") ∈ eqOps := by
        rcases mem_matchOps_cases _ hM with hop | hop | hop | hop <;> rw [hop] <;> decide
      by_cases harity :
          (((⟨StepTy.stringStep, vid0⟩ : PredStep) :: args).length != 3) = true
      · exact ⟨_, by
          simp only [processGroup]
          rw [if_neg (by decide), if_neg hEf, if_pos hM, if_pos harity]⟩
      · have hlen : args.length = 2 := by
          have h3 : ((⟨StepTy.stringStep, vid0⟩ : PredStep) :: args).length = 3 := by
            simpa using harity
          simpa using h3
        obtain ⟨a, b, rfl⟩ := List.length_eq_two.mp hlen
        by_cases hhead : (a.ty != StepTy.captureStep) = true
        · exact ⟨_, by
            simp only [processGroup]
            rw [if_neg (by decide), if_neg hEf, if_pos hM, if_neg harity]
            rw [if_pos hhead]⟩
        · rcases hcond with (hcond | hcond) | hcond
          · exact absurd hcond harity
          · exact absurd (by simpa [headIsCapture] using hcond) hhead
          · simp only at hcond
            by_cases hcap : (b.ty == StepTy.captureStep) = true
            · exact ⟨_, by
                simp only [processGroup]
                rw [if_neg (by decide), if_neg hEf, if_pos hM,
                  if_neg harity]
                rw [if_neg hhead, if_pos hcap]⟩
            · have hregex :
                  ctx.regexCompile (ctx.stringValues.getD b.valueId "") = none := by
                rw [← Option.isNone_iff_eq_none]
                rcases (Bool.or_eq_true _ _).mp hcond with hx | hx
                · exact absurd hx hcap
                · exact hx
              exact ⟨_, by
                simp only [processGroup]
                rw [if_neg (by decide), if_neg hEf, if_pos hM,
                  if_neg harity]
                rw [if_neg hhead, if_neg (by simp [hcap]), hregex]⟩
    · -- any-of? family
      have hEf : ¬(ctx.stringValues.getD vid0 "") ∈ eqOps := by
        rcases mem_anyOfOps_cases _ hA with hop | hop <;> rw [hop] <;> decide
      have hMf : ¬(ctx.stringValues.getD vid0 "") ∈ matchOps := by
        rcases mem_anyOfOps_cases _ hA with hop | hop <;> rw [hop] <;> decide
      have hSf : ¬(ctx.stringValues.getD vid0 "") = "set!" := by
        rcases mem_anyOfOps_cases _ hA with hop | hop <;> rw [hop] <;> decide
      have hI1 : ¬(ctx.stringValues.getD vid0 "") = "is?" := by
        rcases mem_anyOfOps_cases _ hA with hop | hop <;> rw [hop] <;> decide
      have hI2 : ¬(ctx.stringValues.getD vid0 "") = "is-not?" := by
        rcases mem_anyOfOps_cases _ hA with hop | hop <;> rw [hop] <;> decide
      by_cases hlt :
          ((⟨StepTy.stringStep, vid0⟩ : PredStep) :: args).length < 2
      · exact ⟨_, by
          simp only [processGroup]
          rw [if_neg (by decide), if_neg hEf, if_neg hMf,
            if_neg (by simpa using hSf), if_neg (by simpa using And.intro hI1 hI2), if_pos hA, if_pos hlt]⟩
      · match args with
        | [] => exact absurd (by simp) hlt
        | a :: rest =>
          by_cases hhead : (a.ty != StepTy.captureStep) = true
          · exact ⟨_, by
              simp only [processGroup]
              rw [if_neg (by decide), if_neg hEf, if_neg hMf,
                if_neg (by simpa using hSf), if_neg (by simpa using And.intro hI1 hI2), if_pos hA,
                if_neg hlt]
              rw [if_pos hhead]⟩
          · rcases hcond with (hcond | hcond) | hcond
            · exact absurd hcond hlt
            · exact absurd (by simpa [headIsCapture] using hcond) hhead
            · have hany : (rest.any fun x => x.ty == StepTy.captureStep) = true := by
                simpa using hcond
              obtain ⟨e, he⟩ := anyOfArgsLoop_errors_of_capture rowN ctx rest hany []
              exact ⟨e, by
                simp only [processGroup]
                rw [if_neg (by decide), if_neg hEf, if_neg hMf,
                  if_neg (by simpa using hSf), if_neg (by simpa using And.intro hI1 hI2), if_pos hA,
                  if_neg hlt]
                rw [if_neg hhead, he]⟩

end GoTreeSitter.QueryM

namespace GoTreeSitter.QueryM

/-- A violating group anywhere in a pattern's group list makes the group
loop fail. -/
theorem processGroups_errors_of_violation (rowN : Nat) (ctx : QueryCtx) :
    ∀ (gs : List (List PredStep)) (acc : PatternAccs),
      (∃ p ∈ gs, groupViolation ctx p = true) →
      ∃ e, processGroups rowN ctx gs acc = .error e := by
  intro gs
  induction gs with
  | nil =>
    rintro acc ⟨p, hp, _⟩
    cases hp
  | cons g rest ih =>
    rintro acc ⟨p, hp, hv⟩
    unfold processGroups
    cases hpg : processGroup rowN ctx g acc with
    | error e => exact ⟨e, rfl⟩
    | ok acc2 =>
      rcases List.mem_cons.mp hp with rfl | hp2
      · obtain ⟨e, he⟩ := processGroup_errors_of_violation rowN ctx p hv acc
        rw [hpg] at he
        cases he
      · exact ih acc2 ⟨p, hp2, hv⟩

/-- A violating group in any pattern makes the predicate-compilation phase
fail. -/
theorem fromRawPartsModel_errors_of_violation (source : List Char)
    (ctx : QueryCtx) :
    ∀ (pats : List PatternData),
      (∃ pd ∈ pats, ∃ p ∈ splitSteps pd.steps, groupViolation ctx p = true) →
      ∃ e, fromRawPartsModel source ctx pats = .error e := by
  intro pats
  induction pats with
  | nil =>
    rintro ⟨pd, hpd, _⟩
    cases hpd
  | cons pd0 rest ih =>
    rintro ⟨pd, hpd, p, hp, hv⟩
    unfold fromRawPartsModel
    cases hpg : processGroups (patternRow source pd0.byteOffset) ctx
        (splitSteps pd0.steps) emptyAccs with
    | error e => exact ⟨e, rfl⟩
    | ok acc =>
      rcases List.mem_cons.mp hpd with rfl | hpd2
      · obtain ⟨e, he⟩ := processGroups_errors_of_violation
          (patternRow source pd.byteOffset) ctx (splitSteps pd.steps) emptyAccs
          ⟨p, hp, hv⟩
        rw [hpg] at he
        cases he
      · obtain ⟨e, he⟩ := ih ⟨pd, hpd2, p, hp, hv⟩
        exact ⟨e, by rw [he]⟩

/-- C4 (amended): a predicate group that violates the arity/type rules of
the `eq?`, `match?` or `any-of?` families makes the predicate-compilation
phase of `NewQuery` fail, so no query is constructed; and every such error
is a `QueryError` of kind predicate whose row is the row of the offending
pattern — the first pattern whose predicate groups fail to validate, every
earlier pattern validating successfully — while the `Column` and `Offset`
fields are reported as 0. -/
theorem c4_predicate_validation (source : List Char) (ctx : QueryCtx)
    (patterns : List PatternData) :
    ((∃ pd ∈ patterns, ∃ p ∈ splitSteps pd.steps, groupViolation ctx p = true) →
      ∃ e, fromRawPartsModel source ctx patterns = .error e) ∧
    (∀ e, fromRawPartsModel source ctx patterns = .error e →
      NewQueryAfterCompile source ctx patterns = (none, some e) ∧
      e.Kind = .predicateE ∧ e.Column = 0 ∧ e.Offset = 0 ∧
      ∃ (k : Nat) (pd : PatternData), patterns[k]? = some pd ∧
        processGroups (patternRow source pd.byteOffset) ctx
          (splitSteps pd.steps) emptyAccs = .error e ∧
        e.Row = patternRow source pd.byteOffset ∧
        ∀ (j : Nat) (pdj : PatternData), j < k → patterns[j]? = some pdj →
          ∃ acc, processGroups (patternRow source pdj.byteOffset) ctx
            (splitSteps pdj.steps) emptyAccs = .ok acc) := by
  constructor
  · exact fromRawPartsModel_errors_of_violation source ctx patterns
  · intro e he
    obtain ⟨h1, h2, h3, h4⟩ :=
      fromRawPartsModel_error_attribution source ctx patterns e he
    refine ⟨?_, h1, h2, h3, h4⟩
    unfold NewQueryAfterCompile
    rw [he]

/-- Witness for C4 at a concrete violating query: one pattern whose single
predicate group is `eq?` with one argument. -/
theorem c4_predicate_validation_witness :
    (∃ pd ∈ [(⟨[⟨StepTy.stringStep, 0⟩, ⟨StepTy.captureStep, 0⟩], 0⟩ : PatternData)],
      ∃ p ∈ splitSteps pd.steps,
        groupViolation ⟨["eq?"], ["c"], fun _ => none⟩ p = true) ∧
    (∃ e, fromRawPartsModel [] ⟨["eq?"], ["c"], fun _ => none⟩
      [⟨[⟨StepTy.stringStep, 0⟩, ⟨StepTy.captureStep, 0⟩], 0⟩] = .error e) :=
  ⟨⟨⟨[⟨StepTy.stringStep, 0⟩, ⟨StepTy.captureStep, 0⟩], 0⟩, by simp,
    [⟨StepTy.stringStep, 0⟩, ⟨StepTy.captureStep, 0⟩], by simp [splitSteps, splitStepsAux], rfl⟩,
   (c4_predicate_validation [] ⟨["eq?"], ["c"], fun _ => none⟩
      [⟨[⟨StepTy.stringStep, 0⟩, ⟨StepTy.captureStep, 0⟩], 0⟩]).1
     ⟨⟨[⟨StepTy.stringStep, 0⟩, ⟨StepTy.captureStep, 0⟩], 0⟩, by simp,
      [⟨StepTy.stringStep, 0⟩, ⟨StepTy.captureStep, 0⟩], by simp [splitSteps, splitStepsAux], rfl⟩⟩

/-- C4 counterexample to the claim as stated: a violating predicate in a
pattern that starts at column 3 of the query source yields a `QueryError`
whose `Column` is 0, not the pattern's column. -/
theorem c4_counterexample_column_is_zero :
    fromRawPartsModel "(a)(b)".toList ⟨["eq?"], ["c"], fun _ => none⟩
        [⟨[], 0⟩, ⟨[⟨StepTy.stringStep, 0⟩, ⟨StepTy.captureStep, 0⟩], 3⟩] =
      .error (predicateError 0
        "Wrong number of arguments to #eq? predicate. Expected 2, got 1.") ∧
    (predicateError 0
      "Wrong number of arguments to #eq? predicate. Expected 2, got 1.").Column = 0 ∧
    specColumn "(a)(b)".toList 3 = 3 ∧
    specRow "(a)(b)".toList 3 = 0 ∧
    (0 : Nat) ≠ 3 :=
  ⟨rfl, rfl, by decide, by decide, by decide⟩

end GoTreeSitter.QueryM

namespace GoTreeSitter.QueryM

/-- A list all of whose elements satisfy `p` is its own `takeWhile`. -/
theorem takeWhile_all_eq {α : Type} (p : α → Bool) :
    ∀ (l : List α), (∀ x ∈ l, p x = true) → l.takeWhile p = l := by
  intro l
  induction l with
  | nil => intro _; rfl
  | cons a rest ih =>
    intro hall
    rw [List.takeWhile_cons, if_pos (hall a (by simp))]
    rw [ih (fun x hx => hall x (by simp [hx]))]

/-- `takeWhile` walks through a fully satisfying prefix. -/
theorem takeWhile_append_all {α : Type} (p : α → Bool) :
    ∀ (l m : List α), (∀ x ∈ l, p x = true) →
      (l ++ m).takeWhile p = l ++ m.takeWhile p := by
  intro l
  induction l with
  | nil => intro m _; rfl
  | cons a rest ih =>
    intro m hall
    rw [List.cons_append, List.takeWhile_cons, if_pos (hall a (by simp))]
    rw [ih m (fun x hx => hall x (by simp [hx])), List.cons_append]

/-- `takeWhile` never reaches past a failing element of the first part. -/
theorem takeWhile_append_bad {α : Type} (p : α → Bool) :
    ∀ (l m : List α), (∃ x ∈ l, p x = false) →
      (l ++ m).takeWhile p = l.takeWhile p := by
  intro l
  induction l with
  | nil =>
    rintro m ⟨x, hx, _⟩
    cases hx
  | cons a rest ih =>
    rintro m ⟨x, hx, hpx⟩
    by_cases hpa : p a = true
    · rw [List.cons_append, List.takeWhile_cons, if_pos hpa,
        List.takeWhile_cons, if_pos hpa]
      rcases List.mem_cons.mp hx with rfl | hx2
      · rw [hpa] at hpx; cases hpx
      · rw [ih m ⟨x, hx2, hpx⟩]
    · rw [List.cons_append, List.takeWhile_cons,
        if_neg hpa, List.takeWhile_cons, if_neg hpa]

/-- Appending a failing element (and anything after it) does not change
`takeWhile`. -/
theorem takeWhile_append_stop {α : Type} (p : α → Bool) (c : α)
    (hc : p c = false) :
    ∀ (l m : List α), (l ++ c :: m).takeWhile p = l.takeWhile p := by
  intro l
  induction l with
  | nil =>
    intro m
    simp [List.takeWhile_cons, hc]
  | cons a rest ih =>
    intro m
    by_cases hpa : p a = true
    · rw [List.cons_append, List.takeWhile_cons, if_pos hpa,
        List.takeWhile_cons, if_pos hpa, ih m]
    · rw [List.cons_append, List.takeWhile_cons, if_neg hpa,
        List.takeWhile_cons, if_neg hpa]

/-- The head of a non-empty `dropWhile` fails the predicate. -/
theorem dropWhile_head_false {α : Type} (p : α → Bool) :
    ∀ (l : List α) (c : α) (m : List α), l.dropWhile p = c :: m → p c = false := by
  intro l
  induction l with
  | nil => intro c m h; cases h
  | cons a rest ih =>
    intro c m h
    rw [List.dropWhile_cons] at h
    by_cases hpa : p a = true
    · rw [if_pos hpa] at h
      exact ih c m h
    · rw [if_neg hpa] at h
      cases h
      simpa using hpa

/-- `takeWhile` never lengthens a list. -/
theorem length_takeWhile_le_len {α : Type} (p : α → Bool) :
    ∀ l : List α, (l.takeWhile p).length ≤ l.length := by
  intro l
  induction l with
  | nil => simp
  | cons a rest ih =>
    rw [List.takeWhile_cons]
    by_cases hpa : p a = true
    · rw [if_pos hpa]
      simpa using ih
    · rw [if_neg hpa]
      simp

/-- The column of an offset never exceeds the offset. -/
theorem specColumn_le (source : List Char) (offset : Nat) :
    specColumn source offset ≤ offset := by
  unfold specColumn
  calc ((source.take offset).reverse.takeWhile (fun c => c != '\n')).length
      ≤ (source.take offset).reverse.length := length_takeWhile_le_len _ _
    _ = (source.take offset).length := List.length_reverse _
    _ ≤ offset := by
        rw [List.length_take]
        omega

/-- `splitNl` is never empty and its head is the source's first line. -/
theorem splitNl_head (source : List Char) :
    ∃ t, splitNl source = (source.takeWhile (fun c => c != '\n')) :: t := by
  induction source with
  | nil => exact ⟨[], rfl⟩
  | cons c rest ih =>
    by_cases hc : c = '\n'
    · subst hc
      refine ⟨splitNl rest, ?_⟩
      simp [splitNl, List.takeWhile_cons]
    · obtain ⟨t, ht⟩ := ih
      refine ⟨t, ?_⟩
      rw [show splitNl (c :: rest) =
        (if c = '\n' then [] :: splitNl rest
         else
           match splitNl rest with
           | [] => [[c]]
           | h :: t => (c :: h) :: t) from rfl]
      rw [if_neg hc, ht]
      rw [List.takeWhile_cons, if_pos (by simpa using hc)]

end GoTreeSitter.QueryM

namespace GoTreeSitter.QueryM

/-- Row after consuming a leading newline. -/
theorem specRow_cons_nl (rest : List Char) (o : Nat) :
    specRow ('\n' :: rest) (o + 1) = specRow rest o + 1 := by
  unfold specRow
  rw [List.take_succ_cons, List.count_cons_self]

/-- Column after consuming a leading newline. -/
theorem specColumn_cons_nl (rest : List Char) (o : Nat) :
    specColumn ('\n' :: rest) (o + 1) = specColumn rest o := by
  unfold specColumn
  rw [List.take_succ_cons, List.reverse_cons,
    takeWhile_append_stop _ '\n' (by simp) _ []]

/-- Line start after consuming a leading newline. -/
theorem specLineStart_cons_nl (rest : List Char) (o : Nat) :
    specLineStart ('\n' :: rest) (o + 1) = specLineStart rest o + 1 := by
  unfold specLineStart
  rw [specColumn_cons_nl]
  have := specColumn_le rest o
  omega

/-- Line after consuming a leading newline. -/
theorem specLine_cons_nl (rest : List Char) (o : Nat) :
    specLine ('\n' :: rest) (o + 1) = specLine rest o := by
  unfold specLine
  rw [specLineStart_cons_nl, List.drop_succ_cons]

/-- Row after consuming a leading non-newline. -/
theorem specRow_cons_other (c : Char) (rest : List Char) (o : Nat)
    (hc : ¬c = '\n') :
    specRow (c :: rest) (o + 1) = specRow rest o := by
  unfold specRow
  rw [List.take_succ_cons, List.count_cons_of_ne (fun h => hc h.symm)]

/-- Column after a leading non-newline, when a newline already occurs
before the offset in the tail. -/
theorem specColumn_cons_other_deep (c : Char) (rest : List Char) (o : Nat)
    (hmem : '\n' ∈ rest.take o) :
    specColumn (c :: rest) (o + 1) = specColumn rest o := by
  unfold specColumn
  rw [List.take_succ_cons, List.reverse_cons,
    takeWhile_append_bad _ _ _ ⟨'\n', List.mem_reverse.mpr hmem, by simp⟩]

/-- Line start after a leading non-newline, when a newline already occurs
before the offset in the tail. -/
theorem specLineStart_cons_other_deep (c : Char) (rest : List Char) (o : Nat)
    (hmem : '\n' ∈ rest.take o) :
    specLineStart (c :: rest) (o + 1) = specLineStart rest o + 1 := by
  unfold specLineStart
  rw [specColumn_cons_other_deep c rest o hmem]
  have := specColumn_le rest o
  omega

/-- Line after a leading non-newline, when a newline already occurs before
the offset in the tail. -/
theorem specLine_cons_other_deep (c : Char) (rest : List Char) (o : Nat)
    (hmem : '\n' ∈ rest.take o) :
    specLine (c :: rest) (o + 1) = specLine rest o := by
  unfold specLine
  rw [specLineStart_cons_other_deep c rest o hmem, List.drop_succ_cons]

/-- When the offset leaves the newline-free prefix of the tail, a newline
occurs before it. -/
theorem newline_in_take (rest : List Char) (o : Nat)
    (h1 : (rest.takeWhile (fun x => x != '\n')).length < o)
    (h2 : o ≤ rest.length) :
    '\n' ∈ rest.take o := by
  have hsplit := List.takeWhile_append_dropWhile
    (p := fun x : Char => x != '\n') (l := rest)
  cases hdw : rest.dropWhile (fun x => x != '\n') with
  | nil =>
    exfalso
    rw [hdw, List.append_nil] at hsplit
    rw [hsplit] at h1
    omega
  | cons d ds =>
    have hd : d = '\n' := by
      have := dropWhile_head_false (fun x : Char => x != '\n') rest d ds hdw
      simpa using this
    subst hd
    rw [hdw] at hsplit
    have hTo : rest.take o = rest.takeWhile (fun x => x != '\n') ++
        ('\n' :: ds).take (o - (rest.takeWhile (fun x => x != '\n')).length) := by
      conv_lhs => rw [← hsplit]
      rw [List.take_append_eq_append_take,
        List.take_of_length_le (Nat.le_of_lt h1)]
    rw [hTo]
    refine List.mem_append.mpr (Or.inr ?_)
    cases hsub : o - (rest.takeWhile (fun x => x != '\n')).length with
    | zero => omega
    | succ k =>
      rw [List.take_succ_cons]
      simp

/-- When no newline occurs before the offset, the row is 0. -/
theorem specRow_eq_zero_of_no_nl (source : List Char) (offset : Nat)
    (hall : ∀ x ∈ source.take offset, (x != '\n') = true) :
    specRow source offset = 0 := by
  unfold specRow
  refine List.count_eq_zero.mpr ?_
  intro hmem
  have := hall '\n' hmem
  simp at this

/-- When no newline occurs before the offset, the column is the offset. -/
theorem specColumn_eq_offset_of_no_nl (source : List Char) (offset : Nat)
    (hoff : offset ≤ source.length)
    (hall : ∀ x ∈ source.take offset, (x != '\n') = true) :
    specColumn source offset = offset := by
  unfold specColumn
  rw [takeWhile_all_eq _ _ (fun x hx => hall x (List.mem_reverse.mp hx))]
  rw [List.length_reverse, List.length_take]
  omega

end GoTreeSitter.QueryM

namespace GoTreeSitter.QueryM

/-- Within the first line (the head character plus the tail's newline-free
prefix), every character before the offset is a non-newline. -/
theorem no_newline_in_take (c : Char) (rest : List Char) (offset : Nat)
    (hc : (c != '\n') = true)
    (hin : offset ≤ (rest.takeWhile (fun x => x != '\n')).length + 1) :
    ∀ x ∈ (c :: rest).take offset, (x != '\n') = true := by
  cases offset with
  | zero => simp
  | succ o =>
    rw [List.take_succ_cons]
    intro x hx
    rcases List.mem_cons.mp hx with rfl | hx2
    · exact hc
    · have hTo : rest.take o = (rest.takeWhile (fun x => x != '\n')).take o := by
        conv_lhs => rw [← List.takeWhile_append_dropWhile
          (p := fun x : Char => x != '\n') (l := rest)]
        rw [List.take_append_eq_append_take,
          show o - (rest.takeWhile (fun x => x != '\n')).length = 0 from by omega]
        simp
      rw [hTo] at hx2
      have hx3 : x ∈ rest.takeWhile (fun x => x != '\n') :=
        List.mem_of_mem_take hx2
      have hpx := List.mem_takeWhile_imp hx3
      exact hpx

/-- Correctness of the line-locating loop: starting at absolute offset
`ls + offset` with accumulated line start `ls` and row `row`, the loop
returns the accumulated row and line start of the offset together with the
line containing it. -/
theorem locateLinesAux_spec (source : List Char) : ∀ (offset ls row : Nat),
    offset ≤ source.length →
    locateLinesAux (ls + offset) (splitNl source) ls row =
      (row + specRow source offset, ls + specLineStart source offset,
        specLine source offset) := by
  induction source with
  | nil =>
    intro offset ls row hoff
    have h0 : offset = 0 := by simpa using hoff
    subst h0
    simp only [splitNl, locateLinesAux]
    rw [if_pos (by simp)]
    simp [specRow, specLineStart, specColumn, specLine]
  | cons c rest ih =>
    intro offset ls row hoff
    by_cases hc : c = '\n'
    · subst hc
      have hsplit : splitNl ('\n' :: rest) = [] :: splitNl rest := by
        simp [splitNl]
      rw [hsplit]
      cases offset with
      | zero =>
        simp only [locateLinesAux]
        rw [if_pos (by simp)]
        simp [specRow, specLineStart, specColumn, specLine, List.takeWhile_cons]
      | succ o =>
        simp only [locateLinesAux]
        rw [if_neg (by simp)]
        rw [show ls + List.length ([] : List Char) + 1 = ls + 1 from by simp,
          show ls + (o + 1) = ls + 1 + o from by omega]
        rw [ih o (ls + 1) (row + 1) (by simpa using hoff)]
        rw [specRow_cons_nl, specLineStart_cons_nl, specLine_cons_nl]
        simp only [Prod.mk.injEq]
        refine ⟨?_, ?_, ?_⟩ <;> first | omega | trivial
    · have hp : (c != '\n') = true := by simpa using hc
      obtain ⟨t, ht⟩ := splitNl_head rest
      have hsplit : splitNl (c :: rest) =
          (c :: rest.takeWhile (fun x => x != '\n')) :: t := by
        rw [show splitNl (c :: rest) =
          (if c = '\n' then [] :: splitNl rest
           else
             match splitNl rest with
             | [] => [[c]]
             | h :: t => (c :: h) :: t) from rfl]
        rw [if_neg hc, ht]
      rw [hsplit]
      by_cases hin : offset ≤ (rest.takeWhile (fun x => x != '\n')).length + 1
      · simp only [locateLinesAux]
        rw [if_pos (by simp [List.length_cons]; omega)]
        have hall := no_newline_in_take c rest offset hp hin
        have hrow := specRow_eq_zero_of_no_nl (c :: rest) offset hall
        have hcol := specColumn_eq_offset_of_no_nl (c :: rest) offset hoff hall
        have hstart : specLineStart (c :: rest) offset = 0 := by
          unfold specLineStart
          rw [hcol]
          omega
        have hline : specLine (c :: rest) offset =
            c :: rest.takeWhile (fun x => x != '\n') := by
          unfold specLine
          rw [hstart, List.drop_zero, List.takeWhile_cons, if_pos hp]
        rw [hrow, hstart, hline]
        simp
      · cases offset with
        | zero => omega
        | succ o =>
          simp only [locateLinesAux]
          rw [if_neg (by simp [List.length_cons]; omega)]
          have hIH := ih o (ls + 1) row (by simp at hoff; omega)
          rw [ht] at hIH
          simp only [locateLinesAux] at hIH
          rw [if_neg (by omega)] at hIH
          rw [show ls + (o + 1) = ls + 1 + o from by omega,
            show ls + (c :: rest.takeWhile (fun x => x != '\n')).length + 1 =
              ls + 1 + (rest.takeWhile (fun x => x != '\n')).length + 1 from by
                simp [List.length_cons]; omega]
          rw [hIH]
          have hmem : '\n' ∈ rest.take o :=
            newline_in_take rest o (by omega) (by simp at hoff; omega)
          rw [specRow_cons_other c rest o hc,
            specLineStart_cons_other_deep c rest o hmem,
            specLine_cons_other_deep c rest o hmem]
          simp only [Prod.mk.injEq]
          refine ⟨?_, ?_, ?_⟩ <;> first | omega | trivial

/-- The line-locating loop at its real entry point. -/
theorem locateLines_spec (source : List Char) (offset : Nat)
    (h : offset ≤ source.length) :
    locateLinesAux offset (splitNl source) 0 0 =
      (specRow source offset, specLineStart source offset,
        specLine source offset) := by
  have hmain := locateLinesAux_spec source offset 0 0 h
  simpa using hmain

/-- The identifier-run scan takes exactly the identifier prefix. -/
theorem identEndIdx_take (l : List Char) :
    l.take (identEndIdx l) = l.takeWhile isIdentChar := by
  induction l with
  | nil => rfl
  | cons c rest ih =>
    by_cases hcid : isIdentChar c = true
    · simp only [identEndIdx, hcid, if_true, List.take_succ_cons,
        List.takeWhile_cons, ih]
    · simp [identEndIdx, hcid, List.takeWhile_cons]

end GoTreeSitter.QueryM

namespace GoTreeSitter.QueryM

/-- C6 (amended): whenever query compilation fails at a byte offset within
the source, the `QueryError` locates that offset — `Offset` is the offset,
`Row` the number of newlines before it, `Column` its distance from the
start of its line — and its kind mirrors the C error type; for
node-type/field/capture errors the message is the maximal identifier run
starting at the offset; for syntax/structure errors it is the offending
line with a caret under the offending column, or "Unexpected EOF" when the
line containing the offset is empty (in particular past the last line);
and no query is constructed. -/
theorem c6_query_error_location (source : List Char) (offset : Nat)
    (etype : TSQueryErrorC) (hoff : offset ≤ source.length) :
    (queryErrorFromOffset source offset etype).Offset = offset ∧
    (queryErrorFromOffset source offset etype).Row = specRow source offset ∧
    (queryErrorFromOffset source offset etype).Column = specColumn source offset ∧
    (queryErrorFromOffset source offset etype).Kind = kindOfC etype ∧
    ((etype = .nodeTypeC ∨ etype = .fieldC ∨ etype = .captureC) →
      (queryErrorFromOffset source offset etype).Message =
        String.mk ((source.drop offset).takeWhile isIdentChar)) ∧
    ((etype = .structC ∨ etype = .synC) →
      (queryErrorFromOffset source offset etype).Message =
        (if (specLine source offset).isEmpty then "Unexpected EOF"
         else String.mk (specLine source offset) ++ "\n" ++
           String.mk (List.replicate (specColumn source offset) ' ') ++ "^")) ∧
    (NewQueryOnCompileError source offset etype).1 = none := by
  have hloc := locateLines_spec source offset hoff
  have hcol : offset - specLineStart source offset = specColumn source offset := by
    have := specColumn_le source offset
    unfold specLineStart
    omega
  cases etype <;>
    simp [queryErrorFromOffset, hloc, hcol, kindOfC, NewQueryOnCompileError,
      identEndIdx_take]

/-- Witness for C6 at `source = "a\nbc"`, `offset = 3`: row 1, column 1. -/
theorem c6_query_error_location_witness :
    (3 ≤ ("a\nbc".toList).length) ∧
    (queryErrorFromOffset "a\nbc".toList 3 .nodeTypeC).Row =
      specRow "a\nbc".toList 3 ∧
    (queryErrorFromOffset "a\nbc".toList 3 .nodeTypeC).Column =
      specColumn "a\nbc".toList 3 ∧
    specRow "a\nbc".toList 3 = 1 ∧
    specColumn "a\nbc".toList 3 = 1 :=
  ⟨by decide,
   (c6_query_error_location "a\nbc".toList 3 .nodeTypeC (by decide)).2.1,
   (c6_query_error_location "a\nbc".toList 3 .nodeTypeC (by decide)).2.2.1,
   by decide, by decide⟩

/-- C6 counterexample to the claim as stated: with the error offset on an
empty line that is not past the last line, the code reports
"Unexpected EOF" where the claim predicts the line-with-caret message. -/
theorem c6_counterexample_empty_line_eof :
    (queryErrorFromOffset ['\n', '('] 0 .synC).Message = "Unexpected EOF" ∧
    claimedSyntaxMessage ['\n', '('] 0 = "\n^" ∧
    ("Unexpected EOF" : String) ≠ "\n^" ∧
    0 ≤ (['\n', '('] : List Char).length :=
  ⟨rfl, by decide, by decide, by decide⟩

end GoTreeSitter.QueryM
